import Mathlib

/-!
# smallsh: a shallow embedding of `smallsh.c`

The line reader (`readInput`), the command parser (`structParser`) and the
dispatcher (`executeCommand`, the built-ins and `startProcess`) of `smallsh.c`
are written as Lean functions, and the properties of the specification are
proved about them.

Conventions of the embedding.

* A C string is a `List Char`; a `char *` that may be `NULL` is an
  `Option (List Char)`.
* The library calls (`strtok`, `sprintf`, `getchar`, `open`, `dup2`, `fork`,
  `waitpid`, `chdir`, `getenv`) are not part of the program.  `strtok` and
  `sprintf "%d"` are modelled after the C standard; the answers of the
  operating system are read from a record of replies.
* A store through an index is kept as a store at that index
  (`arguments[tot_args]`, `pidArray[pidPos]`), so that the index of every
  store can be compared with the declared capacity of the array.  The parser
  records the first store outside `arguments`, the line reader ends at a
  store outside its buffer.
-/

namespace Smallsh

/-! ## Strings and `strtok` -/

/-- The characters of a C string: the bytes of the buffer before the first
terminator. -/
def cstr (buffer : List Char) : List Char :=
  buffer.takeWhile (fun ch => ch != '\x00')

/-- One call of `strtok(..., " ")` on the text that the saved scan pointer
points to: skip the leading delimiters; if nothing is left the call returns
`NULL`; otherwise the token runs up to the next delimiter, which is
overwritten by a terminator, and the scan pointer is saved just after it. -/
def strtok (saved : List Char) : Option (List Char) × List Char :=
  match saved.dropWhile (fun ch => ch == ' ') with
  | [] => (none, [])
  | ch :: more =>
    (some ((ch :: more).takeWhile (fun x => x != ' ')),
     ((ch :: more).dropWhile (fun x => x != ' ')).drop 1)

/-- The tokens returned by the successive calls of `strtok` on one string,
up to the first `NULL` (after which every further call returns `NULL` again).
Every call that returns a token consumes at least one character, so the
number of calls is bounded by `fuel`. -/
def strtokFrom : Nat → List Char → List (List Char)
  | 0, _ => []
  | fuel + 1, saved =>
    match strtok saved with
    | (none, _) => []
    | (some token, saved') => token :: strtokFrom fuel saved'

/-- All tokens of a line, in the order in which `strtok` returns them. -/
def strtokAll (line : List Char) : List (List Char) :=
  strtokFrom (line.length + 1) line

/-! ## The parsed command -/

/-- The `struct userCommand`.  `arguments` is the array of 512 `char *`: the
cell at index `i` is `arguments i`, indices from 512 on are outside the
array. -/
structure userCommand where
  command : Option (List Char)
  arguments : Nat → Option (List Char)
  in_file : Option (List Char)
  out_file : Option (List Char)
  backProc : Bool
  argNum : Nat

/-- The declared number of cells of `userCommand.arguments`. -/
def argumentsCapacity : Nat := 512

/-- The store `a[i] = v`. -/
def store {α : Type} (a : Nat → α) (i : Nat) (v : α) : Nat → α :=
  fun j => if j = i then v else a j

/-- The cells `arguments[0..argNum)` of a command. -/
def userCommand.args (cmd : userCommand) : List (Option (List Char)) :=
  (List.range cmd.argNum).map cmd.arguments

def input_file : List Char := ['<']
def output_file : List Char := ['>']
def background : List Char := ['&']

/-- The record of the stores outside `arguments`: `overrun` is the index of
the first such store so far, and a store `arguments[index] = ...` is made. -/
def noteStore (overrun : Option Nat) (index : Nat) : Option Nat :=
  match overrun with
  | some first => some first
  | none => if index < argumentsCapacity then none else some index

/-- What a call of `structParser` gives: the struct that it returns and, when
a store `arguments[tot_args] = ...` was made with `tot_args` not below 512,
the index of the first such store.  In that case the store is outside the
array and the behaviour of the C program is undefined from there on; `cmd` is
then only what the statements of the loop prescribe when such a store changes
nothing but its own cell. -/
structure Parsed where
  cmd : userCommand
  overrun : Option Nat

/-- The `while (token != NULL)` loop of `structParser`.  The first argument is
the current `token` followed by the tokens that the next calls of `strtok`
will return (empty: `token == NULL`); `tot_args` is the local counter and
`overrun` the record of the stores outside `arguments`. -/
def structParserLoop : List (List Char) → userCommand → Nat → Option Nat → Parsed
  | [], newCommand, tot_args, overrun =>
    { cmd := { newCommand with argNum := tot_args }, overrun := overrun }
  | token :: next, newCommand, tot_args, overrun =>
    if token = input_file then
      match next with
      | [] =>
        { cmd := { newCommand with in_file := none, argNum := tot_args }, overrun := overrun }
      | operand :: next' =>
        structParserLoop next' { newCommand with in_file := some operand } tot_args overrun
    else if token = output_file then
      match next with
      | [] =>
        { cmd := { newCommand with out_file := none, argNum := tot_args }, overrun := overrun }
      | operand :: next' =>
        structParserLoop next' { newCommand with out_file := some operand } tot_args overrun
    else if token = background then
      match next with
      | [] =>
        { cmd := { newCommand with backProc := true, argNum := tot_args }, overrun := overrun }
      | _ :: _ =>
        structParserLoop next
          { newCommand with
            backProc := false
            arguments := store newCommand.arguments tot_args (some background) }
          (tot_args + 1) (noteStore overrun tot_args)
    else
      structParserLoop next
        { newCommand with
          arguments := store newCommand.arguments tot_args (some token) }
        (tot_args + 1) (noteStore overrun tot_args)

/-- The part of `structParser` after its first call of `strtok`: the first
token is the command, the loop scans the others.  `uninit` is the content of
the local `newCommand.arguments`, which the function does not initialise;
`argNum` is written only at the end. -/
def parseTokens (uninit : Nat → Option (List Char)) (tokens : List (List Char)) :
    Parsed :=
  structParserLoop tokens.tail
    { command := tokens.head?
      arguments := uninit
      in_file := none
      out_file := none
      backProc := false
      argNum := 0 }
    0 none

/-- The function `structParser`, applied to the buffer that holds the line. -/
def structParser (uninit : Nat → Option (List Char)) (line : List Char) : Parsed :=
  parseTokens uninit (strtokAll (cstr line))

/-! ## The line reader -/

/-- The size of the buffer that `readInput` allocates. -/
def bufsize : Nat := 2048

/-- The text that `sprintf(pidString, "%d", smallshPid)` produces, without its
terminator. -/
def pidDigits (smallshPid : Nat) : List Char :=
  Nat.toDigits 10 smallshPid

/-- The declared size of the local `char pidString[8]`. -/
def pidStringSize : Nat := 8

/-- The ways in which a call of `readInput` ends. -/
inductive ReadResult where
  /-- The call returns: the bytes of the buffer before the terminator that
  was written at `position`, and the input that was not read. -/
  | line (text : List Char) (unread : List Char)
  /-- The allocation failed: `exit(EXIT_FAILURE)`. -/
  | allocFailed
  /-- The check `position >= bufsize` fired: `exit(EXIT_FAILURE)`. -/
  | lengthExceeded
  /-- A store `readBuffer[index] = ...` with `index` outside the buffer. -/
  | bufferOverrun (index : Nat)
  /-- The text of the process id with its terminator does not fit into
  `pidString`: `sprintf` writes past the end of the array. -/
  | pidStringOverrun
  deriving DecidableEq

/-- The cells `readBuffer[0..position)`. -/
def contents (readBuffer : Nat → Char) (position : Nat) : List Char :=
  (List.range position).map readBuffer

/-- The inner loop of the expansion, `while (num != '\0')`: it copies the
characters of `pidString` into the buffer from `position` on.  The result is
the buffer and `position` after the loop, or the index of a store outside the
buffer. -/
def copyPid : List Char → (Nat → Char) → Nat → Except Nat ((Nat → Char) × Nat)
  | [], readBuffer, position => .ok (readBuffer, position)
  | num :: more, readBuffer, position =>
    if position < bufsize then
      copyPid more (store readBuffer position num) (position + 1)
    else
      .error position

/-- The `while (1)` loop of `readInput`.  The first argument is the input
that `getchar` will deliver (at its end `getchar` returns `EOF`); `count` is
the local `count$`.  When `count$` reaches 2 an earlier `$` was stored and
`position` was incremented after it, so `position - 1` does not go below 0. -/
def readLoop (smallshPid : Nat) : List Char → (Nat → Char) → Nat → Nat → ReadResult
  | [], readBuffer, position, _ =>
    if position < bufsize then
      .line (contents (store readBuffer position '\x00') position) []
    else .bufferOverrun position
  | ch :: unread, readBuffer, position, count =>
    if ch = '\n' then
      if position < bufsize then
        .line (contents (store readBuffer position '\x00') position) unread
      else .bufferOverrun position
    else if ch = '$' then
      if count + 1 = 2 then
        if pidStringSize < (pidDigits smallshPid).length + 1 then .pidStringOverrun
        else
          match copyPid (pidDigits smallshPid) readBuffer (position - 1) with
          | .error index => .bufferOverrun index
          | .ok (readBuffer', position') =>
            if position' - 1 + 1 ≥ bufsize then .lengthExceeded
            else readLoop smallshPid unread readBuffer' (position' - 1 + 1) 0
      else if position < bufsize then
        if position + 1 ≥ bufsize then .lengthExceeded
        else readLoop smallshPid unread (store readBuffer position ch) (position + 1) (count + 1)
      else .bufferOverrun position
    else if ch = ' ' then
      if position < bufsize then
        if position + 1 ≥ bufsize then .lengthExceeded
        else readLoop smallshPid unread (store readBuffer position ch) (position + 1) 0
      else .bufferOverrun position
    else
      if position < bufsize then
        if position + 1 ≥ bufsize then .lengthExceeded
        else readLoop smallshPid unread (store readBuffer position ch) (position + 1) count
      else .bufferOverrun position

/-- The function `readInput`.  `malloc` is the answer of the allocation:
`none` for `NULL`, otherwise the (arbitrary) initial content of the buffer.
`stdin` is the input that has not been read yet. -/
def readInput (malloc : Option (Nat → Char)) (smallshPid : Nat) (stdin : List Char) :
    ReadResult :=
  match malloc with
  | none => .allocFailed
  | some readBuffer => readLoop smallshPid stdin readBuffer 0 0

/-! ## The interpreter state and the operating system -/

/-- What a descriptor of the interpreter refers to. -/
inductive OpenFile where
  /-- The stream that the process was started with at this descriptor. -/
  | inherited (descriptor : Nat)
  /-- A file opened by `startProcess` for a redirection. -/
  | opened (path : List Char) (forWriting : Bool)
  deriving DecidableEq

/-- One line written by the interpreter. -/
inductive Printed where
  /-- The text `exit value %d`. -/
  | exitValue (value : Int)
  /-- The text `terminated by signal %d`. -/
  | terminatedBySignal (signal : Int)
  /-- The text `background pid is %d`. -/
  | backgroundPid (pid : Int)
  /-- The text `background pid %d is done: exit value %d`. -/
  | backgroundDoneExit (pid : Int) (value : Int)
  /-- The text `background pid %d is done: terminated by signal %d`. -/
  | backgroundDoneSignal (pid : Int) (signal : Int)
  /-- A call `perror(prefix)`. -/
  | perror (pfx : String)
  deriving DecidableEq

/-- The declared number of cells of `pidArray`. -/
def pidArrayCapacity : Nat := 5

/-- The globals of `smallsh.c` (`pidArray`, `pidPos`, `backStatus`,
`foreStatus`) together with the part of the process state that the
interpreter changes: what descriptors 0 and 1 refer to, the working
directory (the path of the last successful `chdir`, `none` before the first)
and the lines written so far.  `pidArray i` is the cell `pidArray[i]`; indices
from 5 on are outside the array. -/
structure Shell where
  pidArray : Nat → Int
  pidPos : Nat
  backStatus : Int
  foreStatus : Int
  stdin : OpenFile
  stdout : OpenFile
  cwd : Option (List Char)
  printed : List Printed

/-- The state at the start of `main`: the globals are zero. -/
def Shell.initial : Shell :=
  { pidArray := fun _ => 0
    pidPos := 0
    backStatus := 0
    foreStatus := 0
    stdin := .inherited 0
    stdout := .inherited 1
    cwd := none
    printed := [] }

/-- The value returned by `fork`. -/
inductive ForkReply where
  /-- The value -1. -/
  | failed
  /-- The value 0: this process is the new child. -/
  | child
  /-- The process id of the child, in the parent. -/
  | parent (pid : Int)
  deriving DecidableEq

/-- The answers of the operating system to the calls made while one command
is executed. -/
structure Replies where
  /-- `dup(0)` returned a descriptor. -/
  dupStdin : Bool
  /-- `dup(1)` returned a descriptor. -/
  dupStdout : Bool
  /-- `open(cmd.in_file, O_RDONLY)` returned a descriptor. -/
  openSource : Bool
  /-- `dup2(sourceFD, 0)` succeeded. -/
  dup2Source : Bool
  /-- `open(cmd.out_file, O_WRONLY | O_CREAT | O_TRUNC, 0644)` returned a
  descriptor. -/
  openTarget : Bool
  /-- `dup2(targetFD, 1)` succeeded. -/
  dup2Target : Bool
  fork : ForkReply
  /-- `execvp` replaced the program of the child. -/
  execvp : Bool
  /-- `dup2(saved_stdin, 0)` succeeds when `saved_stdin` is a descriptor. -/
  restoreStdin : Bool
  /-- `dup2(saved_stdout, 1)` succeeds when `saved_stdout` is a descriptor. -/
  restoreStdout : Bool
  /-- The status that `waitpid` stores, if it stores one. -/
  waitStatus : Option Int
  /-- The value of `getenv("HOME")`. -/
  home : Option (List Char)
  /-- `chdir` succeeds when it is given a path. -/
  chdir : Bool

/-- The ways in which the execution of a command ends. -/
inductive Outcome where
  /-- The function returns `value` to its caller. -/
  | returned (value : Int) (shell : Shell)
  /-- The process ends with `exit(code)`. -/
  | exited (code : Int) (shell : Shell)
  /-- The process is the child and `execvp` replaced its program; `cmdArray`
  is the argument vector. -/
  | replaced (cmdArray : List (Option (List Char))) (shell : Shell)

/-- The value that the function returned, if it returned. -/
def Outcome.value? : Outcome → Option Int
  | .returned value _ => some value
  | .exited _ _ => none
  | .replaced _ _ => none

def EXIT_FAILURE : Int := 1

/-- The call `perror(pfx)`. -/
def Shell.perror (shell : Shell) (pfx : String) : Shell :=
  { shell with printed := shell.printed ++ [.perror pfx] }

/-- The call `printf` of one line. -/
def Shell.printf (shell : Shell) (text : Printed) : Shell :=
  { shell with printed := shell.printed ++ [text] }

/-- The macro `WTERMSIG(status)`, `status & 0x7f`. -/
def WTERMSIG (status : Int) : Int := status % 128

/-- The macro `WIFEXITED(status)`, `WTERMSIG(status) == 0`, an `int` that is 1
or 0. -/
def WIFEXITED (status : Int) : Int := if WTERMSIG status = 0 then 1 else 0

/-- The macro `WEXITSTATUS(status)`, `(status & 0xff00) >> 8`. -/
def WEXITSTATUS (status : Int) : Int := (status / 256) % 256

/-! ## The built-in commands -/

def comment_line : List Char := ['#']

/-- The function `exitShell`. -/
def exitShell (_os : Replies) (_cmd : userCommand) (shell : Shell) : Outcome :=
  .returned 0 shell

/-- The function `cdShell`.  `chdir(NULL)` fails. -/
def cdShell (os : Replies) (cmd : userCommand) (shell : Shell) : Outcome :=
  match cmd.arguments 0 with
  | none =>
    match os.home with
    | none => .returned 1 (shell.perror "smallsh")
    | some path =>
      if os.chdir then .returned 1 { shell with cwd := some path }
      else .returned 1 (shell.perror "smallsh")
  | some path =>
    if os.chdir then .returned 1 { shell with cwd := some path }
    else .returned 1 (shell.perror "smallsh")

/-- The function `statusShell`. -/
def statusShell (_os : Replies) (_cmd : userCommand) (shell : Shell) : Outcome :=
  if WIFEXITED shell.foreStatus ≠ 0 then
    .returned 1 (shell.printf (.exitValue (WIFEXITED shell.foreStatus)))
  else
    .returned 1 (shell.printf (.terminatedBySignal (WTERMSIG shell.foreStatus)))

def builtin_commands : List (List Char) :=
  ["exit".toList, "cd".toList, "status".toList]

def builtin_func : List (Replies → userCommand → Shell → Outcome) :=
  [exitShell, cdShell, statusShell]

def num_builtins : Nat := builtin_commands.length

/-! ## The process launcher -/

/-- The block `// input redirection` of `startProcess`: the state after it,
or the state at its `return 1`. -/
def inputRedirection (os : Replies) (cmd : userCommand) (shell : Shell) :
    Except Shell Shell :=
  match cmd.in_file with
  | none => .ok shell
  | some path =>
    if !os.openSource then .error (shell.perror "smallsh: badfile")
    else if !os.dup2Source then .error (shell.perror "source dup2()")
    else .ok { shell with stdin := .opened path false }

/-- The block `// output redirection` of `startProcess`: the state after it,
or the state at its `return 1`. -/
def outputRedirection (os : Replies) (cmd : userCommand) (shell : Shell) :
    Except Shell Shell :=
  match cmd.out_file with
  | none => .ok shell
  | some path =>
    if !os.openTarget then .error (shell.perror "smallsh: badfile")
    else if !os.dup2Target then .error (shell.perror "target dup2()")
    else .ok { shell with stdout := .opened path true }

/-- The call `dup2(saved_stdin, 0)`: it fails when `saved_stdin` is not a
descriptor. -/
def restoreStdin (os : Replies) (saved_stdin : Option OpenFile) (shell : Shell) : Shell :=
  match saved_stdin with
  | some file => if os.restoreStdin then { shell with stdin := file } else shell
  | none => shell

/-- The call `dup2(saved_stdout, 1)`: it fails when `saved_stdout` is not a
descriptor. -/
def restoreStdout (os : Replies) (saved_stdout : Option OpenFile) (shell : Shell) : Shell :=
  match saved_stdout with
  | some file => if os.restoreStdout then { shell with stdout := file } else shell
  | none => shell

/-- The branch `// parent process` of `startProcess`, after the descriptors
were restored: a background command is announced, its process id is stored
at `pidArray[pidPos]`, `pidPos` is incremented and `waitpid` is called with
`WNOHANG` on `backStatus`; for a foreground command `waitpid` is called on
`foreStatus`. -/
def parentProcess (os : Replies) (cmd : userCommand) (pid : Int) (shell : Shell) : Shell :=
  if cmd.backProc then
    let shell := shell.printf (.backgroundPid pid)
    let shell :=
      { shell with
        pidArray := store shell.pidArray shell.pidPos pid
        pidPos := shell.pidPos + 1 }
    { shell with backStatus := os.waitStatus.getD shell.backStatus }
  else
    { shell with foreStatus := os.waitStatus.getD shell.foreStatus }

/-- The branch `// child process` of `startProcess`: the argument vector is
the command, `arguments[0..argNum)` and `NULL`; `execvp` replaces the program
or the child ends with `exit(EXIT_FAILURE)`. -/
def childProcess (os : Replies) (cmd : userCommand) (shell : Shell) : Outcome :=
  let cmdArray := cmd.command :: (cmd.args ++ [none])
  if os.execvp then .replaced cmdArray shell
  else .exited EXIT_FAILURE (shell.perror "smallsh: badfile")

/-- The function `startProcess`.  `saved_stdin` and `saved_stdout` are the
results of `dup(0)` and `dup(1)`: absent when `dup` fails, otherwise a
descriptor of what 0 and 1 referred to at the call. -/
def startProcess (os : Replies) (cmd : userCommand) (shell : Shell) : Outcome :=
  let saved_stdin : Option OpenFile := if os.dupStdin then some shell.stdin else none
  let saved_stdout : Option OpenFile := if os.dupStdout then some shell.stdout else none
  match inputRedirection os cmd shell with
  | .error shell => .returned 1 shell
  | .ok shell =>
    match outputRedirection os cmd shell with
    | .error shell => .returned 1 shell
    | .ok shell =>
      match os.fork with
      | .failed => .exited EXIT_FAILURE (shell.perror "fork() failed")
      | .child => childProcess os cmd shell
      | .parent pid =>
        .returned 1
          (parentProcess os cmd pid
            (restoreStdout os saved_stdout (restoreStdin os saved_stdin shell)))

/-- The loop of `executeCommand` over the table of built-ins, from index `i`
on: the function of the first name equal to the command is called; when no
name is equal the command is started as a process. -/
def dispatch (os : Replies) (cmd : userCommand) (shell : Shell) (name : List Char) :
    List (List Char) → List (Replies → userCommand → Shell → Outcome) → Outcome
  | builtin :: names, func :: funcs =>
    if name = builtin then func os cmd shell
    else dispatch os cmd shell name names funcs
  | _, _ => startProcess os cmd shell

/-- The function `executeCommand`. -/
def executeCommand (os : Replies) (cmd : userCommand) (shell : Shell) : Outcome :=
  match cmd.command with
  | none => .returned 1 shell
  | some name =>
    if comment_line = name ∨ name.head? = some '#' then .returned 1 shell
    else dispatch os cmd shell name builtin_commands builtin_func

/-! ## The parser as the specification words it

The definitions of this section follow the text of the specification, not the
code; the theorems compare them with the functions above. -/

/-- What the scan of the specification does with a token. -/
inductive Role where
  /-- A scanned `<`. -/
  | inputMarker
  /-- The token after a scanned `<`. -/
  | inputOperand
  /-- A scanned `>`. -/
  | outputMarker
  /-- The token after a scanned `>`. -/
  | outputOperand
  /-- A scanned `&` that no token follows. -/
  | finalBackground
  /-- Every other scanned token, a scanned `&` with a token after it
  included. -/
  | argument
  deriving DecidableEq

/-- The left-to-right scan of the specification over the tokens after the
command name: a `<` or `>` takes the next token as its operand and the scan
continues after it; an `&` that is the last token is the background marker;
any other token is an argument. -/
def specRoles : List (List Char) → List Role
  | [] => []
  | token :: next =>
    if token = ['<'] then
      match next with
      | [] => [.inputMarker]
      | _ :: next' => .inputMarker :: .inputOperand :: specRoles next'
    else if token = ['>'] then
      match next with
      | [] => [.outputMarker]
      | _ :: next' => .outputMarker :: .outputOperand :: specRoles next'
    else if token = ['&'] then
      match next with
      | [] => [.finalBackground]
      | _ :: _ => .argument :: specRoles next
    else .argument :: specRoles next

/-- The tokens that the scan gives the role `role`, in source order. -/
def tokensWithRole (role : Role) (tokens : List (List Char)) : List (List Char) :=
  ((tokens.zip (specRoles tokens)).filter (fun p => p.2 = role)).map Prod.fst

/-- The redirection target of the specification: the token after the last
scanned marker; absent when no marker is scanned or no token follows the last
one. -/
def specRedirect (marker operand : Role) (tokens : List (List Char)) :
    Option (List Char) :=
  if (specRoles tokens).getLast? = some marker then none
  else (tokensWithRole operand tokens).getLast?

/-- The tokens of the specification's split at every single space. -/
def splitAtSpaces (line : List Char) : List (List Char) :=
  line.splitOn ' '

/-- The stores `a[n] = l[0]`, `a[n+1] = l[1]`, ... in this order. -/
def storeList {α : Type} (a : Nat → α) (n : Nat) : List α → Nat → α
  | [] => a
  | v :: l => storeList (store a n v) (n + 1) l

/-- The last element of `l`, or `before` when `l` is empty. -/
def lastOr {α : Type} (before : Option α) (l : List α) : Option α :=
  match l.getLast? with
  | some t => some t
  | none => before

/-- The redirection target after the scan of `tokens`, when it was `before`
at the start of the scan. -/
def redirectFrom (before : Option (List Char)) (marker operand : Role)
    (tokens : List (List Char)) : Option (List Char) :=
  if (specRoles tokens).getLast? = some marker then none
  else lastOr before (tokensWithRole operand tokens)

/-- The record of the stores outside `arguments` after `count` stores at the
indices `tot_args`, `tot_args + 1`, ..., when it was `overrun` before them. -/
def firstOverrun (overrun : Option Nat) (tot_args count : Nat) : Option Nat :=
  match overrun with
  | some first => some first
  | none =>
    if tot_args + count ≤ argumentsCapacity then none
    else some (max tot_args argumentsCapacity)

/-! ## Inputs used in the theorems -/

/-- The line `c a a ... a` with `k` arguments `a`. -/
def lineWithArguments (k : Nat) : List Char :=
  'c' :: (List.replicate k [' ', 'a']).flatten

/-- The result of the loop of `readInput`, started inside the buffer: a
returned line is shorter than the buffer, and a store outside the buffer can
only be the one at index `bufsize`, made by the expansion. -/
def ReadResult.inBounds : ReadResult → Prop
  | .line text _ => text.length < bufsize
  | .bufferOverrun index => index = bufsize
  | _ => True

/-! ## The job tracker and the main loop -/

/-- The answer to one call `waitpid(pidArray[i], &backStatus, WNOHANG)` of the
poll: the value returned (0: no change; the process id: the child ended; -1:
no such child) and the status stored, if one is stored. -/
structure WaitReply where
  result : Int
  status : Option Int

/-- One iteration of the `for` loop at the start of the body of `shell_loop`,
for the slot `i`. -/
def pollSlot (reply : WaitReply) (i : Nat) (shell : Shell) : Shell :=
  if shell.pidArray i = 0 then shell
  else
    let shell := { shell with backStatus := reply.status.getD shell.backStatus }
    if reply.result = 0 then shell
    else
      let shell :=
        if WIFEXITED shell.backStatus ≠ 0 then
          shell.printf (.backgroundDoneExit (shell.pidArray i) (WIFEXITED shell.backStatus))
        else
          shell.printf (.backgroundDoneSignal (shell.pidArray i) (WTERMSIG shell.backStatus))
      { shell with pidArray := store shell.pidArray i 0 }

/-- The loop `for (int i = 0; i < 5; i++)` of `shell_loop`: the background
processes check.  `waits i` is the answer to the call for slot `i`. -/
def pollPass (waits : Nat → WaitReply) (shell : Shell) : Shell :=
  (List.range 5).foldl (fun shell i => pollSlot (waits i) i shell) shell

/-- What one iteration of the loop of `shell_loop` gets from outside the
program: the answers to the polls, the answer of `malloc` in `readInput`, the
content of the uninitialised `arguments` in `structParser`, and the answers
of the operating system to the command. -/
structure Iteration where
  waits : Nat → WaitReply
  malloc : Option (Nat → Char)
  uninit : Nat → Option (List Char)
  os : Replies

/-- The ways in which `shell_loop` goes on. -/
inductive LoopResult where
  /-- The loop ended, `shell_loop` returns and `main` returns
  `EXIT_SUCCESS`. -/
  | returned (shell : Shell)
  /-- The process ended with `exit(code)`. -/
  | exited (code : Int) (shell : Shell)
  /-- The process is a child and `execvp` replaced its program. -/
  | replaced (cmdArray : List (Option (List Char))) (shell : Shell)
  /-- The call of `readInput` stored outside an array. -/
  | undefined (read : ReadResult) (shell : Shell)
  /-- The call of `structParser` stored outside `arguments`, first at
  `index`. -/
  | argumentsOverrun (index : Nat) (shell : Shell)
  /-- The loop is not left within the given iterations: it is about to start
  the next one with the input `stdin`. -/
  | running (stdin : List Char) (shell : Shell)

/-- The state with which the loop went on. -/
def LoopResult.shell : LoopResult → Shell
  | .returned shell => shell
  | .exited _ shell => shell
  | .replaced _ shell => shell
  | .undefined _ shell => shell
  | .argumentsOverrun _ shell => shell
  | .running _ shell => shell

/-- The exit code of the interpreter, once it has ended. -/
def LoopResult.exitCode? : LoopResult → Option Int
  | .returned _ => some 0
  | .exited code _ => some code
  | _ => none

/-- The function `shell_loop`, for the iterations whose surroundings are
given: poll the background processes, read a line, parse it, execute it, and
go on while the status is not 0.  A line whose parse makes a store outside
`arguments` ends the run with `argumentsOverrun`.  The prompt and the messages
of `readInput` are not recorded. -/
def shell_loop (smallshPid : Nat) : List Iteration → List Char → Shell → LoopResult
  | [], stdin, shell => .running stdin shell
  | it :: more, stdin, shell =>
    let shell := pollPass it.waits shell
    match readInput it.malloc smallshPid stdin with
    | .line line unread =>
      match (structParser it.uninit line).overrun with
      | some index => .argumentsOverrun index shell
      | none =>
        match executeCommand it.os (structParser it.uninit line).cmd shell with
        | .returned status shell =>
          if status ≠ 0 then shell_loop smallshPid more unread shell
          else .returned shell
        | .exited code shell => .exited code shell
        | .replaced cmdArray shell => .replaced cmdArray shell
    | .allocFailed => .exited EXIT_FAILURE shell
    | .lengthExceeded => .exited EXIT_FAILURE shell
    | .bufferOverrun index => .undefined (.bufferOverrun index) shell
    | .pidStringOverrun => .undefined .pidStringOverrun shell

/-- Answers of the operating system with which every call succeeds; `fork`
answers in the parent with the process id `pid`, and `waitpid` stores
`status`. -/
def Replies.fine (pid : Int) (status : Option Int) : Replies :=
  { dupStdin := true
    dupStdout := true
    openSource := true
    dup2Source := true
    openTarget := true
    dup2Target := true
    fork := .parent pid
    execvp := true
    restoreStdin := true
    restoreStdout := true
    waitStatus := status
    home := some "/home/user".toList
    chdir := true }

/-- The surroundings of an iteration in which no background process has
changed, the allocation succeeds, `arguments` holds null pointers, and the
operating system answers with `Replies.fine pid none`. -/
def Iteration.quiet (pid : Int) : Iteration :=
  { waits := fun _ => { result := 0, status := none }
    malloc := some (fun _ => ' ')
    uninit := fun _ => none
    os := Replies.fine pid none }

/-- The surroundings of an iteration like `Iteration.quiet pid`, in which the
poll of slot `i` answers that the process `ended i` ended with exit value
0. -/
def Iteration.reaping (ended : Nat → Int) (pid : Int) : Iteration :=
  { Iteration.quiet pid with waits := fun i => { result := ended i, status := some 0 } }

/-- The state at the end of the execution of a command. -/
def Outcome.shell : Outcome → Shell
  | .returned _ shell => shell
  | .exited _ shell => shell
  | .replaced _ shell => shell

/-- The line `c w1 w2 ...`: the command `c` and the given words, each after
one space. -/
def lineWithWords (words : List (List Char)) : List Char :=
  'c' :: (words.map (fun w => ' ' :: w)).flatten

/-! # Theorems

## Stores into arrays -/

theorem range_map_store_lt {α : Type} (a : Nat → α) (n i : Nat) (v : α) (h : n ≤ i) :
    (List.range n).map (store a i v) = (List.range n).map a := by
  apply List.map_congr_left
  intro j hj
  have : j < n := List.mem_range.mp hj
  simp [store]; omega

theorem storeList_lt {α : Type} (l : List α) (a : Nat → α) (n i : Nat) (h : i < n) :
    storeList a n l i = a i := by
  induction l generalizing a n with
  | nil => rfl
  | cons v l ih =>
    simp only [storeList]
    rw [ih _ _ (by omega)]
    simp [store]; omega

theorem range_map_storeList {α : Type} (l : List α) (a : Nat → α) (n : Nat) :
    (List.range (n + l.length)).map (storeList a n l) = (List.range n).map a ++ l := by
  induction l generalizing a n with
  | nil => simp [storeList]
  | cons v l ih =>
    simp only [storeList, List.length_cons]
    have := ih (store a n v) (n + 1)
    rw [show n + (l.length + 1) = n + 1 + l.length by omega, this, List.range_succ, List.map_append,
      range_map_store_lt _ _ _ _ (le_refl n)]
    simp [store]

/-! ## The scan of `structParser` -/

theorem lastOr_nil {α : Type} (d : Option α) : lastOr d [] = d := rfl

theorem lastOr_cons {α : Type} (d : Option α) (x : α) (l : List α) :
    lastOr d (x :: l) = lastOr (some x) l := by
  cases l with
  | nil => rfl
  | cons y l =>
    simp only [lastOr, List.getLast?_cons_cons]
    rw [List.getLast?_eq_getLast (y :: l) (by simp)]

theorem getLast?_cons_of_ne {α : Type} (r m : α) (rs : List α) (h : r ≠ m) :
    (r :: rs).getLast? = some m ↔ rs.getLast? = some m := by
  cases rs with
  | nil => simp [h]
  | cons y l => rw [List.getLast?_cons_cons]

theorem tokensWithRole_cons (r ro : Role) (t : List Char) (next : List (List Char))
    (h : specRoles (t :: next) = ro :: specRoles next) :
    tokensWithRole r (t :: next) = (if ro = r then [t] else []) ++ tokensWithRole r next := by
  unfold tokensWithRole
  rw [h, List.zip_cons_cons, List.filter_cons]
  by_cases hr : ro = r <;> simp [hr]

theorem tokensWithRole_cons_cons (r r1 r2 : Role) (t u : List Char) (next : List (List Char))
    (h : specRoles (t :: u :: next) = r1 :: r2 :: specRoles next) :
    tokensWithRole r (t :: u :: next) =
      (if r1 = r then [t] else []) ++ ((if r2 = r then [u] else []) ++ tokensWithRole r next) := by
  unfold tokensWithRole
  rw [h, List.zip_cons_cons, List.zip_cons_cons, List.filter_cons, List.filter_cons]
  by_cases hr : r1 = r <;> by_cases hr2 : r2 = r <;> simp [hr, hr2]

theorem redirectFrom_cons (d : Option (List Char)) (m o ro : Role) (t : List Char)
    (next : List (List Char))
    (h : specRoles (t :: next) = ro :: specRoles next) (hm : ro ≠ m) (ho : ro ≠ o) :
    redirectFrom d m o (t :: next) = redirectFrom d m o next := by
  unfold redirectFrom
  rw [tokensWithRole_cons o ro t next h, h]
  simp only [getLast?_cons_of_ne ro m _ hm, if_neg ho, List.nil_append]

theorem redirectFrom_cons_cons (d : Option (List Char)) (m o r1 r2 : Role) (t u : List Char)
    (next : List (List Char))
    (h : specRoles (t :: u :: next) = r1 :: r2 :: specRoles next)
    (h1 : r1 ≠ o) (h2 : r2 ≠ m) :
    redirectFrom d m o (t :: u :: next) =
      redirectFrom (if r2 = o then some u else d) m o next := by
  unfold redirectFrom
  rw [tokensWithRole_cons_cons o r1 r2 t u next h, h, List.getLast?_cons_cons]
  simp only [getLast?_cons_of_ne r2 m _ h2, if_neg h1, List.nil_append]
  by_cases h3 : r2 = o
  · simp only [h3, if_true, List.singleton_append, lastOr_cons]
  · simp only [h3, if_false, List.nil_append]

theorem firstOverrun_zero (o : Option Nat) (n : Nat) (h : o = none → n ≤ argumentsCapacity) :
    firstOverrun o n 0 = o := by
  cases o with
  | some f => rfl
  | none => simp [firstOverrun, h rfl]

theorem firstOverrun_noteStore (o : Option Nat) (n count : Nat)
    (h : o = none → n ≤ argumentsCapacity) :
    firstOverrun (noteStore o n) (n + 1) count = firstOverrun o n (count + 1) := by
  cases o with
  | some f => rfl
  | none =>
    have hn := h rfl
    simp only [argumentsCapacity] at hn
    by_cases hlt : n < 512
    · simp only [noteStore, firstOverrun, argumentsCapacity, hlt, if_true]
      by_cases hc : n + 1 + count ≤ 512
      · rw [if_pos hc, if_pos (by omega)]
      · rw [if_neg hc, if_neg (by omega)]
        congr 1; omega
    · have he : n = 512 := by omega
      subst he
      simp [noteStore, firstOverrun, argumentsCapacity]

theorem noteStore_inv (o : Option Nat) (n : Nat) :
    noteStore o n = none → n + 1 ≤ argumentsCapacity := by
  cases o with
  | some f => intro h; exact Option.noConfusion h
  | none =>
    simp only [noteStore]
    split
    · intro _; omega
    · intro h; exact Option.noConfusion h

theorem structParserLoop_eq (tokens : List (List Char)) (c : userCommand) (n : Nat)
    (o : Option Nat) (hb : c.backProc = false) (ho : o = none → n ≤ argumentsCapacity) :
    structParserLoop tokens c n o =
      { cmd :=
          { command := c.command
            arguments := storeList c.arguments n ((tokensWithRole .argument tokens).map some)
            in_file := redirectFrom c.in_file .inputMarker .inputOperand tokens
            out_file := redirectFrom c.out_file .outputMarker .outputOperand tokens
            backProc := decide ((specRoles tokens).getLast? = some .finalBackground)
            argNum := n + (tokensWithRole .argument tokens).length }
        overrun := firstOverrun o n (tokensWithRole .argument tokens).length } := by
  induction tokens, c, n, o using structParserLoop.induct with
  | case1 c n o =>
    simp [structParserLoop, specRoles, tokensWithRole, redirectFrom, storeList, hb, lastOr,
      firstOverrun_zero o n ho]
  | case2 c n o =>
    simp [structParserLoop, specRoles, tokensWithRole, redirectFrom, storeList, hb, input_file,
      lastOr, firstOverrun_zero o n ho]
  | case3 c n o operand next' ih =>
    have hr : specRoles (['<'] :: operand :: next') =
        .inputMarker :: .inputOperand :: specRoles next' := by
      simp [specRoles]
    simp only [input_file] at ih
    simp only [structParserLoop, input_file, if_true]
    rw [ih hb ho, redirectFrom_cons_cons _ _ _ _ _ _ _ _ hr (by decide) (by decide),
      redirectFrom_cons_cons _ _ _ _ _ _ _ _ hr (by decide) (by decide),
      tokensWithRole_cons_cons _ _ _ _ _ _ hr]
    simp only [hr, List.getLast?_cons_cons,
      getLast?_cons_of_ne Role.inputOperand Role.finalBackground _ (by decide)]
    simp
  | case4 c n o h =>
    simp [structParserLoop, specRoles, tokensWithRole, redirectFrom, storeList, hb, input_file,
      output_file, lastOr, firstOverrun_zero o n ho]
  | case5 c n o operand next' h ih =>
    have hr : specRoles (['>'] :: operand :: next') =
        .outputMarker :: .outputOperand :: specRoles next' := by
      simp [specRoles]
    simp only [output_file] at ih
    simp only [structParserLoop, input_file, output_file, if_true]
    rw [if_neg (by decide), ih hb ho,
      redirectFrom_cons_cons _ _ _ _ _ _ _ _ hr (by decide) (by decide),
      redirectFrom_cons_cons _ _ _ _ _ _ _ _ hr (by decide) (by decide),
      tokensWithRole_cons_cons _ _ _ _ _ _ hr]
    simp only [hr, List.getLast?_cons_cons,
      getLast?_cons_of_ne Role.outputOperand Role.finalBackground _ (by decide)]
    simp
  | case6 c n o h1 h2 =>
    simp [structParserLoop, specRoles, tokensWithRole, redirectFrom, storeList, hb, input_file,
      output_file, background, lastOr, firstOverrun_zero o n ho]
  | case7 c n o operand next' h1 h2 ih =>
    have hr : specRoles (['&'] :: operand :: next') = .argument :: specRoles (operand :: next') := by
      simp [specRoles]
    simp only [background] at ih
    simp only [structParserLoop, input_file, output_file, background, if_true]
    rw [if_neg (by decide), if_neg (by decide), ih trivial (noteStore_inv o n),
      redirectFrom_cons _ _ _ _ _ _ hr (by decide) (by decide),
      redirectFrom_cons _ _ _ _ _ _ hr (by decide) (by decide),
      tokensWithRole_cons _ _ _ _ hr, firstOverrun_noteStore o n _ ho]
    simp only [hr, getLast?_cons_of_ne Role.argument Role.finalBackground _ (by decide)]
    simp [storeList, Nat.add_assoc, Nat.add_comm]
  | case8 token next c n o h1 h2 h3 ih =>
    have hr : specRoles (token :: next) = .argument :: specRoles next := by
      simp only [input_file, output_file, background] at h1 h2 h3
      cases next <;> simp [specRoles, h1, h2, h3]
    conv_lhs => unfold structParserLoop
    simp only [if_neg h1, if_neg h2, if_neg h3]
    rw [ih hb (noteStore_inv o n), redirectFrom_cons _ _ _ _ _ _ hr (by decide) (by decide),
      redirectFrom_cons _ _ _ _ _ _ hr (by decide) (by decide),
      tokensWithRole_cons _ _ _ _ hr, firstOverrun_noteStore o n _ ho]
    simp only [hr, getLast?_cons_of_ne Role.argument Role.finalBackground _ (by decide)]
    simp [storeList, Nat.add_assoc, Nat.add_comm]

theorem redirectFrom_none (m o : Role) (tokens : List (List Char)) :
    redirectFrom none m o tokens = specRedirect m o tokens := by
  unfold redirectFrom specRedirect lastOr
  cases (tokensWithRole o tokens).getLast? <;> rfl

theorem parseTokens_eq (uninit : Nat → Option (List Char)) (tokens : List (List Char)) :
    parseTokens uninit tokens =
      { cmd :=
          { command := tokens.head?
            arguments := storeList uninit 0 ((tokensWithRole .argument tokens.tail).map some)
            in_file := specRedirect .inputMarker .inputOperand tokens.tail
            out_file := specRedirect .outputMarker .outputOperand tokens.tail
            backProc := decide ((specRoles tokens.tail).getLast? = some .finalBackground)
            argNum := (tokensWithRole .argument tokens.tail).length }
        overrun :=
          if (tokensWithRole .argument tokens.tail).length ≤ argumentsCapacity then none
          else some argumentsCapacity } := by
  unfold parseTokens
  rw [structParserLoop_eq _ _ _ _ rfl (fun _ => Nat.zero_le _)]
  simp only [redirectFrom_none, Nat.zero_add, firstOverrun, Nat.zero_le, max_eq_right]

theorem parseTokens_args (uninit : Nat → Option (List Char)) (tokens : List (List Char)) :
    (parseTokens uninit tokens).cmd.args = (tokensWithRole .argument tokens.tail).map some := by
  rw [parseTokens_eq]
  unfold userCommand.args
  have := range_map_storeList ((tokensWithRole .argument tokens.tail).map some) uninit 0
  simpa using this

theorem specRoles_finalBackground (tokens : List (List Char)) :
    (specRoles tokens).getLast? = some .finalBackground → tokens.getLast? = some ['&'] := by
  induction tokens using specRoles.induct with
  | case1 => simp [specRoles]
  | case2 => simp [specRoles]
  | case3 operand next' ih =>
    intro h
    have hr : specRoles (['<'] :: operand :: next') =
        .inputMarker :: .inputOperand :: specRoles next' := by simp [specRoles]
    rw [hr, List.getLast?_cons_cons, getLast?_cons_of_ne _ _ _ (by decide)] at h
    have := ih h
    cases next' with
    | nil => simp at this
    | cons a l => simpa [List.getLast?_cons_cons] using this
  | case4 h => simp [specRoles]
  | case5 operand next' _ ih =>
    intro h
    have hr : specRoles (['>'] :: operand :: next') =
        .outputMarker :: .outputOperand :: specRoles next' := by simp [specRoles]
    rw [hr, List.getLast?_cons_cons, getLast?_cons_of_ne _ _ _ (by decide)] at h
    have := ih h
    cases next' with
    | nil => simp at this
    | cons a l => simpa [List.getLast?_cons_cons] using this
  | case6 _ _ => simp [specRoles]
  | case7 operand next' _ _ ih =>
    intro h
    have hr : specRoles (['&'] :: operand :: next') = .argument :: specRoles (operand :: next') := by
      simp [specRoles]
    rw [hr, getLast?_cons_of_ne _ _ _ (by decide)] at h
    simpa [List.getLast?_cons_cons] using ih h
  | case8 token next h1 h2 h3 ih =>
    intro h
    have hr : specRoles (token :: next) = .argument :: specRoles next := by
      cases next <;> simp [specRoles, h1, h2, h3]
    rw [hr, getLast?_cons_of_ne _ _ _ (by decide)] at h
    have := ih h
    cases next with
    | nil => simp at this
    | cons a l => simpa [List.getLast?_cons_cons] using this

/-! ## Tokens -/

theorem strtokFrom_nil (n : Nat) : strtokFrom n [] = [] := by
  cases n <;> simp [strtokFrom, strtok]

theorem splitAtSpaces_cons_space (xs : List Char) :
    splitAtSpaces (' ' :: xs) = [] :: splitAtSpaces xs := by
  simp [splitAtSpaces, List.splitOn, List.splitOnP_cons]

theorem splitAtSpaces_cons_other (x : Char) (xs : List Char) (h : x ≠ ' ') :
    splitAtSpaces (x :: xs) = (splitAtSpaces xs).modifyHead (List.cons x) := by
  simp [splitAtSpaces, List.splitOn, List.splitOnP_cons, h]

theorem splitAtSpaces_eq (t : List Char) :
    splitAtSpaces t =
      t.takeWhile (fun x => x != ' ') ::
        (match t.dropWhile (fun x => x != ' ') with
          | [] => []
          | _ :: rest => splitAtSpaces rest) := by
  induction t with
  | nil => simp [splitAtSpaces, List.splitOn]
  | cons x xs ih =>
    by_cases h : x = ' '
    · subst h
      simp [splitAtSpaces_cons_space]
    · rw [splitAtSpaces_cons_other x xs h, ih]
      simp [List.takeWhile_cons, List.dropWhile_cons, h]

theorem splitAtSpaces_dropWhile (s : List Char) :
    (splitAtSpaces s).filter (fun piece => piece ≠ []) =
      (splitAtSpaces (s.dropWhile (fun ch => ch == ' '))).filter (fun piece => piece ≠ []) := by
  induction s with
  | nil => rfl
  | cons x xs ih =>
    by_cases h : x = ' '
    · subst h
      simpa [splitAtSpaces_cons_space, List.dropWhile_cons] using ih
    · simp [List.dropWhile_cons, h]

theorem splitAtSpaces_no_space (s : List Char) :
    ∀ piece ∈ splitAtSpaces s, ' ' ∉ piece := by
  induction s with
  | nil => simp [splitAtSpaces, List.splitOn]
  | cons x xs ih =>
    by_cases h : x = ' '
    · subst h
      rw [splitAtSpaces_cons_space]
      intro piece hp
      rcases List.mem_cons.mp hp with rfl | hp
      · simp
      · exact ih piece hp
    · rw [splitAtSpaces_cons_other x xs h]
      cases hs : splitAtSpaces xs with
      | nil => simp
      | cons p ps =>
        rw [hs] at ih
        intro piece hp
        simp only [List.modifyHead_cons, List.mem_cons] at hp
        rcases hp with rfl | hp
        · have := ih p (List.mem_cons_self _ _)
          simp only [List.mem_cons, not_or]
          exact ⟨fun e => h e.symm, this⟩
        · exact ih piece (List.mem_cons_of_mem _ hp)

theorem dropWhile_space_head (s : List Char) (c : Char) (more : List Char)
    (h : s.dropWhile (fun ch => ch == ' ') = c :: more) : c ≠ ' ' := by
  have := List.head_dropWhile_not (fun ch => ch == ' ') s (by rw [h]; simp)
  simpa [h] using this

theorem length_dropWhile_le' (p : Char → Bool) (s : List Char) :
    (s.dropWhile p).length ≤ s.length := by
  induction s with
  | nil => simp
  | cons x xs ih => 
    simp only [List.dropWhile_cons]
    split
    · simp; omega
    · simp

theorem strtokFrom_eq (n : Nat) (s : List Char) (h : s.length < n) :
    strtokFrom n s = (splitAtSpaces s).filter (fun piece => piece ≠ []) := by
  induction n generalizing s with
  | zero => omega
  | succ n ih =>
    rw [splitAtSpaces_dropWhile]
    simp only [strtokFrom, strtok]
    have hlen := length_dropWhile_le' (fun ch => ch == ' ') s
    cases hd : s.dropWhile (fun ch => ch == ' ') with
    | nil => simp [splitAtSpaces, List.splitOn]
    | cons c more =>
      have hc := dropWhile_space_head s c more hd
      rw [hd] at hlen
      simp only
      rw [splitAtSpaces_eq (c :: more)]
      have hne : (c :: more).takeWhile (fun x => x != ' ') ≠ [] := by
        simp [List.takeWhile_cons, hc]
      rw [List.filter_cons_of_pos (by simpa using hne)]
      congr 1
      have hlen2 := length_dropWhile_le' (fun x => x != ' ') (c :: more)
      cases hd2 : (c :: more).dropWhile (fun x => x != ' ') with
      | nil => simp [strtokFrom_nil]
      | cons sp rest =>
        rw [hd2] at hlen2
        simp only [List.drop_succ_cons, List.drop_zero]
        apply ih
        simp only [List.length_cons] at hlen hlen2
        omega

/-- C3, as the code has it: the tokens of a line are the pieces between
single spaces that are not empty (runs of spaces, and spaces at either end,
yield no token), and `structParser` parses exactly these. -/
theorem structParser_tokens (uninit : Nat → Option (List Char)) (line : List Char) :
    strtokAll (cstr line) = (splitAtSpaces (cstr line)).filter (fun piece => piece ≠ []) ∧
    structParser uninit line =
      parseTokens uninit ((splitAtSpaces (cstr line)).filter (fun piece => piece ≠ [])) ∧
    (∀ token ∈ strtokAll (cstr line), token ≠ [] ∧ ' ' ∉ token) := by
  have h : strtokAll (cstr line) = (splitAtSpaces (cstr line)).filter (fun piece => piece ≠ []) :=
    strtokFrom_eq _ _ (Nat.lt_succ_self _)
  refine ⟨h, by rw [structParser, h], ?_⟩
  intro token ht
  rw [h, List.mem_filter] at ht
  exact ⟨by simpa using ht.2, splitAtSpaces_no_space _ token ht.1⟩

/-- C3 fails as stated: for `ls`, two spaces, `-l` the arguments are not the
empty string followed by `-l`; the only argument is `-l`. -/
theorem structParser_collapses_spaces :
    (structParser (fun _ => none) "ls  -l".toList).overrun = none ∧
    (structParser (fun _ => none) "ls  -l".toList).cmd.args = [some "-l".toList] ∧
    ¬ (structParser (fun _ => none) "ls  -l".toList).cmd.args =
      [some [], some "-l".toList] := by
  decide

/-! ## Markers are whole tokens -/

theorem specRoles_marker (tokens : List (List Char)) :
    ∀ p ∈ tokens.zip (specRoles tokens),
      (p.2 = .inputMarker → p.1 = ['<']) ∧ (p.2 = .outputMarker → p.1 = ['>']) ∧
      (p.2 = .finalBackground → p.1 = ['&']) := by
  induction tokens using specRoles.induct with
  | case1 => simp [specRoles]
  | case2 => simp [specRoles]
  | case3 operand next' ih =>
    have hr : specRoles (['<'] :: operand :: next') =
        .inputMarker :: .inputOperand :: specRoles next' := by simp [specRoles]
    rw [hr]
    intro p hp
    simp only [List.zip_cons_cons, List.mem_cons] at hp
    rcases hp with rfl | rfl | hp
    · simp
    · simp
    · exact ih p hp
  | case4 h => simp [specRoles]
  | case5 operand next' _ ih =>
    have hr : specRoles (['>'] :: operand :: next') =
        .outputMarker :: .outputOperand :: specRoles next' := by simp [specRoles]
    rw [hr]
    intro p hp
    simp only [List.zip_cons_cons, List.mem_cons] at hp
    rcases hp with rfl | rfl | hp
    · simp
    · simp
    · exact ih p hp
  | case6 _ _ => simp [specRoles]
  | case7 operand next' _ _ ih =>
    have hr : specRoles (['&'] :: operand :: next') = .argument :: specRoles (operand :: next') := by
      simp [specRoles]
    rw [hr]
    intro p hp
    simp only [List.zip_cons_cons, List.mem_cons] at hp
    rcases hp with rfl | hp
    · simp
    · exact ih p (by simpa using hp)
  | case8 token next h1 h2 h3 ih =>
    have hr : specRoles (token :: next) = .argument :: specRoles next := by
      cases next <;> simp [specRoles, h1, h2, h3]
    rw [hr]
    intro p hp
    simp only [List.zip_cons_cons, List.mem_cons] at hp
    rcases hp with rfl | hp
    · simp
    · exact ih p hp

/-- C4 fails as stated: in `cat < a>b` the token `a>b` comes after the
command name, contains `>` and is not the one-character string `>`, yet it is
not appended to the arguments: it is the operand of the `<` before it and
becomes `in_file`. -/
theorem structParser_operand_not_argument :
    (structParser (fun _ => none) "cat < a>b".toList).overrun = none ∧
    (structParser (fun _ => none) "cat < a>b".toList).cmd.in_file = some "a>b".toList ∧
    (structParser (fun _ => none) "cat < a>b".toList).cmd.argNum = 0 ∧
    ¬ some "a>b".toList ∈ (structParser (fun _ => none) "cat < a>b".toList).cmd.args := by
  decide

/-- C4, as the code has it: when no store of the parse is outside
`arguments`, a token after the command name that is not the operand of a
scanned `<` or `>` and is not exactly `<`, `>` or `&` (it may contain these
characters) has the role of an argument and is stored in
`arguments[0..argNum)`; the iteration of the loop that is at such a token
makes the store `arguments[tot_args]` of the token, increments `tot_args` and
changes nothing else; this store is inside the array when `tot_args` is below
512, and is otherwise recorded as a store outside it. -/
theorem structParser_marker_exact (uninit : Nat → Option (List Char)) (line : List Char)
    (token : List Char) (role : Role)
    (hfit : (structParser uninit line).overrun = none)
    (hmem : (token, role) ∈
      (strtokAll (cstr line)).tail.zip (specRoles (strtokAll (cstr line)).tail))
    (h1 : token ≠ ['<']) (h2 : token ≠ ['>']) (h3 : token ≠ ['&'])
    (hin : role ≠ .inputOperand) (hout : role ≠ .outputOperand) :
    role = .argument ∧
    some token ∈ (structParser uninit line).cmd.args ∧
    (structParser uninit line).cmd.argNum ≤ argumentsCapacity ∧
    (∀ (next : List (List Char)) (newCommand : userCommand) (tot_args : Nat)
        (overrun : Option Nat),
      structParserLoop (token :: next) newCommand tot_args overrun =
        structParserLoop next
          { newCommand with arguments := store newCommand.arguments tot_args (some token) }
          (tot_args + 1) (noteStore overrun tot_args)) ∧
    (∀ (tot_args : Nat) (overrun : Option Nat),
      tot_args < argumentsCapacity → noteStore overrun tot_args = overrun) ∧
    (∀ (tot_args : Nat),
      argumentsCapacity ≤ tot_args → noteStore none tot_args = some tot_args) := by
  have hm := specRoles_marker _ _ hmem
  have hrole : role = .argument := by
    cases role with
    | inputMarker => exact absurd (hm.1 rfl) h1
    | inputOperand => exact absurd rfl hin
    | outputMarker => exact absurd (hm.2.1 rfl) h2
    | outputOperand => exact absurd rfl hout
    | finalBackground => exact absurd (hm.2.2 rfl) h3
    | argument => rfl
  refine ⟨hrole, ?_, ?_, ?_, ?_, fun tot_args hge => if_neg (Nat.not_lt.mpr hge)⟩
  · rw [structParser, parseTokens_args, List.mem_map]
    refine ⟨token, ?_, rfl⟩
    unfold tokensWithRole
    rw [List.mem_map]
    exact ⟨(token, role), List.mem_filter.mpr ⟨hmem, by simp [hrole]⟩, rfl⟩
  · rw [structParser, parseTokens_eq] at hfit ⊢
    simp only at hfit ⊢
    by_contra hgt
    rw [if_neg hgt] at hfit
    exact Option.noConfusion hfit
  · intro next newCommand tot_args overrun
    conv_lhs => unfold structParserLoop
    simp only [input_file, output_file, background, if_neg h1, if_neg h2, if_neg h3]
  · intro tot_args overrun hlt
    cases overrun with
    | some f => rfl
    | none => simp [noteStore, hlt]

/-- An instance of C4 as the code has it: in `ls a>b -l` the token `a>b` is an
argument and sets neither redirection nor the background flag. -/
theorem structParser_marker_exact_witness :
    (structParser (fun _ => none) "ls a>b -l".toList).overrun = none ∧
    (some "a>b".toList ∈ (structParser (fun _ => none) "ls a>b -l".toList).cmd.args) ∧
    (structParser (fun _ => none) "ls a>b -l".toList).cmd.in_file = none ∧
    (structParser (fun _ => none) "ls a>b -l".toList).cmd.out_file = none ∧
    (structParser (fun _ => none) "ls a>b -l".toList).cmd.backProc = false :=
  ⟨by decide,
   (structParser_marker_exact (fun _ => none) "ls a>b -l".toList "a>b".toList .argument
      (by decide) (by decide) (by decide) (by decide) (by decide) (by decide)
      (by decide)).2.1,
    by decide, by decide, by decide⟩

/-! ## The capacity of `arguments` -/

theorem storeList_get {α : Type} (l : List α) (a : Nat → α) (n i : Nat) (h : i < l.length) :
    storeList a n l (n + i) = l.get ⟨i, h⟩ := by
  induction l generalizing a n i with
  | nil => simp at h
  | cons v l ih =>
    simp only [storeList]
    cases i with
    | zero =>
      simp only [Nat.add_zero]
      rw [storeList_lt _ _ _ _ (Nat.lt_succ_self n)]
      simp [store]
    | succ i =>
      have := ih (store a n v) (n + 1) i (by simpa using h)
      rw [show n + (i + 1) = n + 1 + i by omega, this]
      rfl

theorem cstr_eq_self (l : List Char) (h : '\x00' ∉ l) : cstr l = l := by
  unfold cstr
  rw [List.takeWhile_eq_self_iff]
  intro x hx
  have : x ≠ '\x00' := fun e => h (e ▸ hx)
  simpa using this

theorem splitAtSpaces_words (k : Nat) (x : Char) (hx : x ≠ ' ') :
    (splitAtSpaces (x :: (List.replicate k [' ', 'a']).flatten)).filter
        (fun piece => piece ≠ []) = [x] :: List.replicate k ['a'] := by
  induction k generalizing x with
  | zero =>
    simp [splitAtSpaces_cons_other x [] hx, splitAtSpaces, List.splitOn, hx]
  | succ k ih =>
    have h : (List.replicate (k + 1) [' ', 'a']).flatten =
        ' ' :: 'a' :: (List.replicate k [' ', 'a']).flatten := by
      simp [List.replicate_succ]
    rw [h, splitAtSpaces_cons_other x _ hx, splitAtSpaces_cons_space, List.modifyHead_cons,
      List.filter_cons_of_pos (by simp), ih 'a' (by decide)]
    simp [List.replicate_succ]

theorem tokensWithRole_words (k : Nat) :
    tokensWithRole .argument (List.replicate k ['a']) = List.replicate k ['a'] := by
  induction k with
  | zero => rfl
  | succ k ih =>
    have hr : specRoles (['a'] :: List.replicate k ['a']) =
        .argument :: specRoles (List.replicate k ['a']) := by
      cases h : List.replicate k ['a'] <;> simp [specRoles]
    rw [List.replicate_succ, tokensWithRole_cons _ _ _ _ hr, ih]
    simp

theorem structParser_lineWithArguments (uninit : Nat → Option (List Char)) (k : Nat) :
    structParser uninit (lineWithArguments k) =
      { cmd :=
          { command := some ['c']
            arguments := storeList uninit 0 (List.replicate k (some ['a']))
            in_file := specRedirect .inputMarker .inputOperand (List.replicate k ['a'])
            out_file := specRedirect .outputMarker .outputOperand (List.replicate k ['a'])
            backProc :=
              decide ((specRoles (List.replicate k ['a'])).getLast? = some .finalBackground)
            argNum := k }
        overrun := if k ≤ argumentsCapacity then none else some argumentsCapacity } := by
  have hc : cstr (lineWithArguments k) = lineWithArguments k := by
    apply cstr_eq_self
    simp [lineWithArguments, List.mem_flatten, List.mem_replicate]
  have ht : strtokAll (lineWithArguments k) = ['c'] :: List.replicate k ['a'] := by
    unfold strtokAll
    rw [strtokFrom_eq _ _ (Nat.lt_succ_self _)]
    exact splitAtSpaces_words k 'c' (by decide)
  rw [structParser, hc, ht, parseTokens_eq]
  simp [tokensWithRole_words]

theorem length_lineWithArguments (k : Nat) : (lineWithArguments k).length = 2 * k + 1 := by
  simp [lineWithArguments, List.length_flatten, List.map_replicate, List.sum_replicate]
  omega

theorem structParser_lineWithArguments_cell (uninit : Nat → Option (List Char)) (k i : Nat)
    (h : i < k) :
    (structParser uninit (lineWithArguments k)).cmd.arguments i = some ['a'] := by
  rw [structParser_lineWithArguments]
  have := storeList_get (List.replicate k (some ['a'])) uninit 0 i (by simpa using h)
  rw [Nat.zero_add] at this
  show storeList uninit 0 (List.replicate k (some ['a'])) i = some ['a']
  rw [this]
  simp

/-! ## The line reader -/

theorem contents_store_ge (buf : Nat → Char) (p q : Nat) (ch : Char) (h : q ≤ p) :
    contents (store buf p ch) q = contents buf q :=
  range_map_store_lt buf q p ch h

theorem contents_store_succ (buf : Nat → Char) (p : Nat) (ch : Char) :
    contents (store buf p ch) (p + 1) = contents buf p ++ [ch] := by
  unfold contents
  rw [List.range_succ, List.map_append, range_map_store_lt _ _ _ _ (le_refl p)]
  simp [store]

theorem length_contents (buf : Nat → Char) (p : Nat) : (contents buf p).length = p := by
  simp [contents]

theorem readLoop_newline (pid : Nat) (rest : List Char) (buf : Nat → Char) (pos count : Nat)
    (h : pos < bufsize) :
    readLoop pid ('\n' :: rest) buf pos count = .line (contents buf pos) rest := by
  simp [readLoop, h, contents_store_ge]

theorem readLoop_eof (pid : Nat) (buf : Nat → Char) (pos count : Nat) (h : pos < bufsize) :
    readLoop pid [] buf pos count = .line (contents buf pos) [] := by
  simp [readLoop, h, contents_store_ge]

theorem readLoop_plain_step (pid : Nat) (ch : Char) (rest : List Char) (buf : Nat → Char)
    (pos count : Nat) (h1 : ch ≠ '\n') (h2 : ch ≠ '$') (hpos : pos + 1 < bufsize) :
    readLoop pid (ch :: rest) buf pos count =
      readLoop pid rest (store buf pos ch) (pos + 1) (if ch = ' ' then 0 else count) := by
  have h3 : pos < bufsize := by omega
  have h4 : ¬ pos + 1 ≥ bufsize := by omega
  by_cases hs : ch = ' '
  · subst hs
    simp [readLoop, h3, h4]
  · simp [readLoop, h1, h2, hs, h3, h4]

theorem readLoop_plain (pid : Nat) (l rest : List Char) (buf : Nat → Char) (pos count : Nat)
    (hl : ∀ ch ∈ l, ch ≠ '\n' ∧ ch ≠ '$') (hpos : pos + l.length < bufsize) :
    ∃ buf' count', readLoop pid (l ++ rest) buf pos count =
        readLoop pid rest buf' (pos + l.length) count' ∧
      contents buf' (pos + l.length) = contents buf pos ++ l ∧
      (count = 0 → count' = 0) := by
  induction l generalizing buf pos count with
  | nil => exact ⟨buf, count, rfl, by simp, id⟩
  | cons ch l ih =>
    have hch := hl ch (List.mem_cons_self _ _)
    simp only [List.length_cons] at hpos
    obtain ⟨buf', count', h1, h2, h3⟩ :=
      ih (store buf pos ch) (pos + 1) (if ch = ' ' then 0 else count)
        (fun x hx => hl x (List.mem_cons_of_mem _ hx)) (by omega)
    refine ⟨buf', count', ?_, ?_, ?_⟩
    · rw [List.cons_append, readLoop_plain_step pid ch _ buf pos count hch.1 hch.2 (by omega), h1,
        List.length_cons, show pos + 1 + l.length = pos + (l.length + 1) by omega]
    · rw [List.length_cons, show pos + (l.length + 1) = pos + 1 + l.length by omega, h2,
        contents_store_succ]
      simp
    · intro hc
      apply h3
      simp [hc]

theorem copyPid_ok (ds : List Char) (buf : Nat → Char) (pos : Nat)
    (h : pos + ds.length ≤ bufsize) :
    ∃ buf', copyPid ds buf pos = .ok (buf', pos + ds.length) ∧
      contents buf' (pos + ds.length) = contents buf pos ++ ds := by
  induction ds generalizing buf pos with
  | nil => exact ⟨buf, rfl, by simp⟩
  | cons d ds ih =>
    simp only [List.length_cons] at h
    obtain ⟨buf', h1, h2⟩ := ih (store buf pos d) (pos + 1) (by omega)
    have hp : pos < bufsize := by omega
    refine ⟨buf', ?_, ?_⟩
    · rw [copyPid, if_pos hp, h1, List.length_cons,
        show pos + 1 + ds.length = pos + (ds.length + 1) by omega]
    · rw [List.length_cons, show pos + (ds.length + 1) = pos + 1 + ds.length by omega, h2,
        contents_store_succ]
      simp

theorem copyPid_error (ds : List Char) (buf : Nat → Char) (pos : Nat)
    (h1 : pos ≤ bufsize) (h2 : bufsize < pos + ds.length) :
    copyPid ds buf pos = .error bufsize := by
  induction ds generalizing buf pos with
  | nil => simp at h2; omega
  | cons d ds ih =>
    simp only [List.length_cons] at h2
    rw [copyPid]
    by_cases hp : pos < bufsize
    · rw [if_pos hp]
      exact ih _ _ (by omega) (by omega)
    · rw [if_neg hp]
      congr 1; omega

theorem toDigitsCore_mem (f n : Nat) (ds : List Char) :
    ∀ c ∈ Nat.toDigitsCore 10 f n ds, c ∈ ds ∨ c.isDigit = true := by
  induction f generalizing n ds with
  | zero => intro c hc; exact Or.inl hc
  | succ f ih =>
    intro c hc
    have hd : (Nat.digitChar (n % 10)).isDigit = true := by
      have : n % 10 < 10 := Nat.mod_lt _ (by decide)
      generalize n % 10 = m at this
      interval_cases m <;> decide
    simp only [Nat.toDigitsCore] at hc
    split at hc
    · rcases List.mem_cons.mp hc with rfl | hc
      · exact Or.inr hd
      · exact Or.inl hc
    · rcases ih _ _ c hc with h | h
      · rcases List.mem_cons.mp h with rfl | h
        · exact Or.inr hd
        · exact Or.inl h
      · exact Or.inr h

theorem pidDigits_isDigit (pid : Nat) : ∀ c ∈ pidDigits pid, c.isDigit = true := by
  intro c hc
  rcases toDigitsCore_mem _ _ _ c hc with h | h
  · simp at h
  · exact h

theorem pidDigits_ne_nil (pid : Nat) : pidDigits pid ≠ [] := by
  unfold pidDigits Nat.toDigits
  simp only [Nat.toDigitsCore]
  split
  · simp
  · intro h
    have := Nat.toDigitsCore_lens_eq 10 pid (pid / 10) (Nat.digitChar (pid % 10)) []
    rw [h] at this
    simp at this

theorem pidDigits_length (pid : Nat) (h : pid < 10 ^ 7) : (pidDigits pid).length ≤ 7 :=
  Nat.toDigitsCore_length 10 (by decide) (pid + 1) pid 7 h (by decide)

theorem readLoop_dollar_first (pid : Nat) (rest : List Char) (buf : Nat → Char) (pos : Nat)
    (hpos : pos + 1 < bufsize) :
    readLoop pid ('$' :: rest) buf pos 0 = readLoop pid rest (store buf pos '$') (pos + 1) 1 := by
  have h3 : pos < bufsize := by omega
  have h4 : ¬ pos + 1 ≥ bufsize := by omega
  simp [readLoop, h3, h4]

theorem readLoop_dollar_second (pid : Nat) (rest : List Char) (buf : Nat → Char) (pos : Nat)
    (hd : (pidDigits pid).length + 1 ≤ pidStringSize) :
    readLoop pid ('$' :: rest) buf pos 1 =
      match copyPid (pidDigits pid) buf (pos - 1) with
      | .error index => .bufferOverrun index
      | .ok (readBuffer', position') =>
        if position' - 1 + 1 ≥ bufsize then .lengthExceeded
        else readLoop pid rest readBuffer' (position' - 1 + 1) 0 := by
  have h : ¬ pidStringSize < (pidDigits pid).length + 1 := by omega
  simp [readLoop, h]

theorem readLoop_expand (pid : Nat) (rest : List Char) (buf : Nat → Char) (pos : Nat)
    (hd : (pidDigits pid).length + 1 ≤ pidStringSize)
    (hpos : pos - 1 + (pidDigits pid).length < bufsize) :
    ∃ buf', readLoop pid ('$' :: rest) buf pos 1 =
        readLoop pid rest buf' (pos - 1 + (pidDigits pid).length) 0 ∧
      contents buf' (pos - 1 + (pidDigits pid).length) =
        contents buf (pos - 1) ++ pidDigits pid := by
  obtain ⟨buf', h1, h2⟩ := copyPid_ok (pidDigits pid) buf (pos - 1) (by omega)
  have hlen : 0 < (pidDigits pid).length := List.length_pos.mpr (pidDigits_ne_nil pid)
  refine ⟨buf', ?_, h2⟩
  rw [readLoop_dollar_second pid rest buf pos hd, h1]
  have e : pos - 1 + (pidDigits pid).length - 1 + 1 = pos - 1 + (pidDigits pid).length := by omega
  simp only [e]
  rw [if_neg (by omega)]

theorem readLoop_expand_exceeded (pid : Nat) (rest : List Char) (buf : Nat → Char) (pos : Nat)
    (hd : (pidDigits pid).length + 1 ≤ pidStringSize)
    (hpos : pos - 1 + (pidDigits pid).length = bufsize) :
    readLoop pid ('$' :: rest) buf pos 1 = .lengthExceeded := by
  obtain ⟨buf', h1, _⟩ := copyPid_ok (pidDigits pid) buf (pos - 1) (by omega)
  have hlen : 0 < (pidDigits pid).length := List.length_pos.mpr (pidDigits_ne_nil pid)
  rw [readLoop_dollar_second pid rest buf pos hd, h1]
  have e : pos - 1 + (pidDigits pid).length - 1 + 1 = pos - 1 + (pidDigits pid).length := by omega
  simp only [e]
  rw [if_pos (by omega)]

theorem readLoop_expand_overrun (pid : Nat) (rest : List Char) (buf : Nat → Char) (pos : Nat)
    (hd : (pidDigits pid).length + 1 ≤ pidStringSize) (hp : pos - 1 ≤ bufsize)
    (hpos : bufsize < pos - 1 + (pidDigits pid).length) :
    readLoop pid ('$' :: rest) buf pos 1 = .bufferOverrun bufsize := by
  rw [readLoop_dollar_second pid rest buf pos hd, copyPid_error _ _ _ hp hpos]

theorem readLoop_pair (pid : Nat) (rest : List Char) (buf : Nat → Char) (pos : Nat)
    (hd : (pidDigits pid).length + 1 ≤ pidStringSize)
    (hpos : pos + (pidDigits pid).length < bufsize) :
    ∃ buf', readLoop pid ('$' :: '$' :: rest) buf pos 0 =
        readLoop pid rest buf' (pos + (pidDigits pid).length) 0 ∧
      contents buf' (pos + (pidDigits pid).length) = contents buf pos ++ pidDigits pid := by
  have hlen : 0 < (pidDigits pid).length := List.length_pos.mpr (pidDigits_ne_nil pid)
  obtain ⟨buf', h1, h2⟩ := readLoop_expand pid rest (store buf pos '$') (pos + 1) hd
    (by simpa using hpos)
  simp only [Nat.add_sub_cancel] at h1 h2
  refine ⟨buf', ?_, ?_⟩
  · rw [readLoop_dollar_first pid _ buf pos (by omega), h1]
  · rw [h2, contents_store_ge _ _ _ _ (le_refl pos)]

/-- C6 at the failing input: the line `$a$` has no two consecutive `$`, and
`readInput` does not return it unchanged: with the process id 123 it returns
`$123`. -/
theorem readInput_expands_separated_dollars (readBuffer : Nat → Char) (unread : List Char) :
    readInput (some readBuffer) 123 ("$a$\n".toList ++ unread) = .line "$123".toList unread ∧
    "$123".toList ≠ "$a$".toList := by
  exact ⟨rfl, by decide⟩

/-! ## Reading and parsing `echo $$` -/

theorem splitAtSpaces_single (l : List Char) (h : ' ' ∉ l) : splitAtSpaces l = [l] := by
  unfold splitAtSpaces List.splitOn
  apply List.splitOnP_eq_single
  intro x hx
  have : x ≠ ' ' := fun e => h (e ▸ hx)
  simpa using this

theorem isDigit_ne (c d : Char) (hc : c.isDigit = true) (hd : d.isDigit = false) : c ≠ d := by
  intro e; rw [e, hd] at hc; exact Bool.noConfusion hc

theorem readInput_echo (readBuffer : Nat → Char) (pid : Nat) (unread : List Char)
    (h : pid < 10 ^ 7) :
    readInput (some readBuffer) pid ("echo $$\n".toList ++ unread) =
      .line ("echo ".toList ++ pidDigits pid) unread := by
  have hlen := pidDigits_length pid h
  have hd : (pidDigits pid).length + 1 ≤ pidStringSize := by
    simp only [pidStringSize]; omega
  obtain ⟨buf1, count1, h1, h2, h3⟩ := readLoop_plain pid "echo ".toList
    ("$$\n".toList ++ unread) readBuffer 0 0 (by decide) (by decide)
  obtain ⟨buf2, h4, h5⟩ := readLoop_pair pid ('\n' :: unread) buf1 5 hd
    (by simp only [bufsize]; omega)
  have e1 : "echo $$\n".toList ++ unread = "echo ".toList ++ ("$$\n".toList ++ unread) := rfl
  have e2 : "$$\n".toList ++ unread = '$' :: '$' :: '\n' :: unread := rfl
  have e3 : 0 + "echo ".toList.length = 5 := rfl
  rw [e3] at h1 h2
  rw [readInput, e1, h1, h3 rfl, e2, h4,
    readLoop_newline _ _ _ _ _ (by simp only [bufsize]; omega), h5, h2]
  rfl

theorem structParser_echo (uninit : Nat → Option (List Char)) (pid : Nat) :
    structParser uninit ("echo ".toList ++ pidDigits pid) =
      { cmd :=
          { command := some "echo".toList
            arguments := store uninit 0 (some (pidDigits pid))
            in_file := none
            out_file := none
            backProc := false
            argNum := 1 }
        overrun := none } := by
  have hdig := pidDigits_isDigit pid
  have hne := pidDigits_ne_nil pid
  have hsp : ' ' ∉ pidDigits pid := fun hm => isDigit_ne _ _ (hdig _ hm) (by decide) rfl
  have hc : cstr ("echo ".toList ++ pidDigits pid) = "echo ".toList ++ pidDigits pid := by
    apply cstr_eq_self
    intro hm
    rcases List.mem_append.mp hm with hm | hm
    · revert hm; decide
    · exact isDigit_ne _ _ (hdig _ hm) (by decide) rfl
  have ht : strtokAll ("echo ".toList ++ pidDigits pid) = ["echo".toList, pidDigits pid] := by
    unfold strtokAll
    rw [strtokFrom_eq _ _ (Nat.lt_succ_self _)]
    have : "echo ".toList ++ pidDigits pid = 'e' :: 'c' :: 'h' :: 'o' :: ' ' :: pidDigits pid := rfl
    rw [this, splitAtSpaces_cons_other _ _ (by decide), splitAtSpaces_cons_other _ _ (by decide),
      splitAtSpaces_cons_other _ _ (by decide), splitAtSpaces_cons_other _ _ (by decide),
      splitAtSpaces_cons_space, splitAtSpaces_single _ hsp]
    simp [hne]
  have h1 : pidDigits pid ≠ input_file := by
    intro e
    exact isDigit_ne _ '<' (hdig '<' (by rw [e]; simp [input_file])) (by decide) rfl
  have h2 : pidDigits pid ≠ output_file := by
    intro e
    exact isDigit_ne _ '>' (hdig '>' (by rw [e]; simp [output_file])) (by decide) rfl
  have h3 : pidDigits pid ≠ background := by
    intro e
    exact isDigit_ne _ '&' (hdig '&' (by rw [e]; simp [background])) (by decide) rfl
  rw [structParser, hc, ht]
  simp [parseTokens, structParserLoop, h1, h2, h3, noteStore, argumentsCapacity]

/-- C7: for every process id below 10^7, whatever the number of its decimal
digits (the process ids of the system are in this range: at most 4194304 on
Linux, so their text fits `pidString`), `readInput` turns the line `echo $$`
into `echo ` followed by the decimal text of the process id, and
`structParser` parses this, with no store outside `arguments`, into the
command `echo` with exactly one argument, that text. -/
theorem readInput_structParser_echo (readBuffer : Nat → Char)
    (uninit : Nat → Option (List Char)) (pid : Nat) (unread : List Char) (h : pid < 10 ^ 7) :
    readInput (some readBuffer) pid ("echo $$\n".toList ++ unread) =
      .line ("echo ".toList ++ pidDigits pid) unread ∧
    pidDigits pid = (Nat.repr pid).toList ∧
    (structParser uninit ("echo ".toList ++ pidDigits pid)).overrun = none ∧
    (structParser uninit ("echo ".toList ++ pidDigits pid)).cmd.command =
      some "echo".toList ∧
    (structParser uninit ("echo ".toList ++ pidDigits pid)).cmd.argNum = 1 ∧
    (structParser uninit ("echo ".toList ++ pidDigits pid)).cmd.args =
      [some (pidDigits pid)] := by
  refine ⟨readInput_echo readBuffer pid unread h, rfl, ?_, ?_, ?_, ?_⟩
  · rw [structParser_echo]
  · rw [structParser_echo]
  · rw [structParser_echo]
  · rw [structParser_echo]
    rfl

/-- Instances of C7 at process ids of one digit and of seven digits, the
largest process id of Linux among them. -/
theorem readInput_structParser_echo_witness :
    readInput (some (fun _ => ' ')) 4194304 "echo $$\n".toList =
      .line "echo 4194304".toList [] ∧
    (structParser (fun _ => none) "echo 4194304".toList).cmd.args =
      [some "4194304".toList] ∧
    readInput (some (fun _ => ' ')) 7 "echo $$\n".toList = .line "echo 7".toList [] ∧
    (structParser (fun _ => none) "echo 7".toList).cmd.args = [some "7".toList] :=
  ⟨(readInput_structParser_echo (fun _ => ' ') (fun _ => none) 4194304 [] (by decide)).1,
   (readInput_structParser_echo (fun _ => ' ') (fun _ => none) 4194304 []
      (by decide)).2.2.2.2.2,
   (readInput_structParser_echo (fun _ => ' ') (fun _ => none) 7 [] (by decide)).1,
   (readInput_structParser_echo (fun _ => ' ') (fun _ => none) 7 [] (by decide)).2.2.2.2.2⟩

/-! ## Runs of `$` -/

theorem readLoop_pairs (pid n : Nat) (rest : List Char) (buf : Nat → Char) (pos : Nat)
    (hd : (pidDigits pid).length + 1 ≤ pidStringSize)
    (hpos : pos + n * (pidDigits pid).length < bufsize) :
    ∃ buf', readLoop pid (List.replicate (2 * n) '$' ++ rest) buf pos 0 =
        readLoop pid rest buf' (pos + n * (pidDigits pid).length) 0 ∧
      contents buf' (pos + n * (pidDigits pid).length) =
        contents buf pos ++ (List.replicate n (pidDigits pid)).flatten := by
  induction n generalizing buf pos with
  | zero => exact ⟨buf, by simp, by simp⟩
  | succ n ih =>
    have e : List.replicate (2 * (n + 1)) '$' ++ rest =
        '$' :: '$' :: (List.replicate (2 * n) '$' ++ rest) := by
      rw [show 2 * (n + 1) = 2 * n + 1 + 1 by omega]
      rfl
    have hs : pos + (n + 1) * (pidDigits pid).length =
        pos + (pidDigits pid).length + n * (pidDigits pid).length := by
      rw [Nat.succ_mul]; omega
    rw [hs] at hpos
    obtain ⟨buf1, h1, h2⟩ := readLoop_pair pid (List.replicate (2 * n) '$' ++ rest) buf pos hd
      (by omega)
    obtain ⟨buf2, h3, h4⟩ := ih buf1 (pos + (pidDigits pid).length) hpos
    refine ⟨buf2, ?_, ?_⟩
    · rw [e, h1, h3, hs]
    · rw [hs, h4, h2, List.replicate_succ, List.flatten_cons, List.append_assoc]

theorem readLoop_odd_dollars (pid n : Nat) (pre : List Char) (buf : Nat → Char)
    (hd : (pidDigits pid).length + 1 ≤ pidStringSize)
    (hpre : ∀ ch ∈ pre, ch ≠ '\n' ∧ ch ≠ '$')
    (hfit : pre.length + n * (pidDigits pid).length + 1 < bufsize) (rest : List Char) :
    ∃ buf', readLoop pid (pre ++ (List.replicate (2 * n + 1) '$' ++ rest)) buf 0 0 =
        readLoop pid rest buf' (pre.length + n * (pidDigits pid).length + 1) 1 ∧
      contents buf' (pre.length + n * (pidDigits pid).length + 1) =
        pre ++ (List.replicate n (pidDigits pid)).flatten ++ ['$'] := by
  obtain ⟨buf1, count1, h1, h2, h3⟩ := readLoop_plain pid pre
    (List.replicate (2 * n + 1) '$' ++ rest) buf 0 0 hpre (by omega)
  have e : List.replicate (2 * n + 1) '$' ++ rest =
      List.replicate (2 * n) '$' ++ ('$' :: rest) := by
    rw [List.replicate_succ', List.append_assoc]; rfl
  rw [Nat.zero_add] at h1 h2
  obtain ⟨buf2, h4, h5⟩ := readLoop_pairs pid n ('$' :: rest) buf1 pre.length hd (by omega)
  refine ⟨store buf2 (pre.length + n * (pidDigits pid).length) '$', ?_, ?_⟩
  · rw [h1, h3 rfl, e, h4, readLoop_dollar_first _ _ _ _ hfit]
  · rw [contents_store_succ, h5, h2]
    simp [contents]

/-- C8 fails as stated: with the process id 1234 the line of 1025 `$`
(512 pairs and one more) is shorter than the buffer but its expansion is not,
and `readInput` ends the process; with a process id of 8 digits the text of
the process id does not fit into `pidString`. -/
theorem readInput_odd_dollars_long :
    (∀ unread, readInput (some (fun _ => ' ')) 1234
      (List.replicate (2 * 512 + 1) '$' ++ '\n' :: unread) = .lengthExceeded) ∧
    readInput (some (fun _ => ' ')) 10000000 "$$$\n".toList = .pidStringOverrun := by
  refine ⟨?_, by decide⟩
  intro unread
  have hd : (pidDigits 1234).length + 1 ≤ pidStringSize := by decide
  have hl : (pidDigits 1234).length = 4 := by decide
  have e : List.replicate (2 * 512 + 1) '$' ++ '\n' :: unread =
      List.replicate (2 * 511) '$' ++ ('$' :: '$' :: '$' :: '\n' :: unread) := by
    rw [show 2 * 512 + 1 = 2 * 511 + 3 by rfl, List.replicate_add, List.append_assoc]
    rfl
  obtain ⟨buf1, h1, _⟩ := readLoop_pairs 1234 511 ('$' :: '$' :: '$' :: '\n' :: unread)
    (fun _ => ' ') 0 hd (by rw [hl]; decide)
  rw [readInput, e, h1, hl, readLoop_dollar_first _ _ _ _ (by decide),
    readLoop_expand_exceeded _ _ _ _ hd (by rw [hl]; rfl)]

/-- C8, as the code has it: for a process id of at most 7 decimal digits, a
prefix without `$` and a run of `2n+1` characters `$` that ends the line, when
the prefix, `n` copies of the process id and one `$` together are shorter than
2048 characters, `readInput` returns exactly this text. -/
theorem readInput_odd_dollars (readBuffer : Nat → Char) (pid n : Nat) (pre unread : List Char)
    (hpid : pid < 10 ^ 7) (hpre : ∀ ch ∈ pre, ch ≠ '\n' ∧ ch ≠ '$')
    (hfit : pre.length + n * (pidDigits pid).length + 1 < bufsize) :
    readInput (some readBuffer) pid (pre ++ List.replicate (2 * n + 1) '$' ++ '\n' :: unread) =
      .line (pre ++ (List.replicate n (pidDigits pid)).flatten ++ ['$']) unread ∧
    readInput (some readBuffer) pid (pre ++ List.replicate (2 * n + 1) '$') =
      .line (pre ++ (List.replicate n (pidDigits pid)).flatten ++ ['$']) [] := by
  have hlen := pidDigits_length pid hpid
  have hd : (pidDigits pid).length + 1 ≤ pidStringSize := by
    simp only [pidStringSize]; omega
  constructor
  · obtain ⟨buf', h1, h2⟩ := readLoop_odd_dollars pid n pre readBuffer hd hpre hfit ('\n' :: unread)
    rw [readInput, List.append_assoc, h1, readLoop_newline _ _ _ _ _ hfit, h2]
  · obtain ⟨buf', h1, h2⟩ := readLoop_odd_dollars pid n pre readBuffer hd hpre hfit []
    rw [List.append_nil] at h1
    rw [readInput, h1, readLoop_eof _ _ _ _ hfit, h2]

/-- An instance of C8 as the code has it: the prefix `ab`, five `$` and the
process id 4194304. -/
theorem readInput_odd_dollars_witness :
    readInput (some (fun _ => ' ')) 4194304 "ab$$$$$\n".toList =
      .line "ab41943044194304$".toList [] :=
  (readInput_odd_dollars (fun _ => ' ') 4194304 2 "ab".toList [] (by decide) (by decide)
    (by decide)).1

/-- C9 at the failing input: after 2046 characters `a` the expansion of `$$`
with the process id 1234 starts at index 2046 and stores its third digit at
index 2048, outside the buffer of 2048 bytes, before any length check. -/
theorem readInput_overruns_buffer (readBuffer : Nat → Char) (unread : List Char) :
    readInput (some readBuffer) 1234 (List.replicate 2046 'a' ++ '$' :: '$' :: unread) =
      .bufferOverrun 2048 ∧ ¬ 2048 < bufsize := by
  refine ⟨?_, by decide⟩
  have hd : (pidDigits 1234).length + 1 ≤ pidStringSize := by decide
  have hl : (pidDigits 1234).length = 4 := by decide
  obtain ⟨buf1, count1, h1, _, h3⟩ := readLoop_plain 1234 (List.replicate 2046 'a')
    ('$' :: '$' :: unread) readBuffer 0 0
    (by
      intro ch hch
      rw [List.eq_of_mem_replicate hch]
      decide)
    (by rw [List.length_replicate]; decide)
  rw [List.length_replicate, Nat.zero_add] at h1
  rw [readInput, h1, h3 rfl, readLoop_dollar_first _ _ _ _ (by decide),
    readLoop_expand_overrun _ _ _ _ hd (by decide) (by rw [hl]; decide)]
  rfl

/-! ## The dispatcher -/

theorem startProcess_input_failed (os : Replies) (cmd : userCommand) (shell s1 : Shell)
    (h1 : inputRedirection os cmd shell = .error s1) :
    startProcess os cmd shell = .returned 1 s1 := by
  simp only [startProcess, h1]

theorem startProcess_output_failed (os : Replies) (cmd : userCommand) (shell s1 s2 : Shell)
    (h1 : inputRedirection os cmd shell = .ok s1)
    (h2 : outputRedirection os cmd s1 = .error s2) :
    startProcess os cmd shell = .returned 1 s2 := by
  simp only [startProcess, h1, h2]

theorem startProcess_fork (os : Replies) (cmd : userCommand) (shell s1 s2 : Shell)
    (h1 : inputRedirection os cmd shell = .ok s1)
    (h2 : outputRedirection os cmd s1 = .ok s2) :
    startProcess os cmd shell =
      match os.fork with
      | .failed => .exited EXIT_FAILURE (s2.perror "fork() failed")
      | .child => childProcess os cmd s2
      | .parent pid =>
        .returned 1
          (parentProcess os cmd pid
            (restoreStdout os (if os.dupStdout then some shell.stdout else none)
              (restoreStdin os (if os.dupStdin then some shell.stdin else none) s2))) := by
  simp only [startProcess, h1, h2]

theorem startProcess_value (os : Replies) (cmd : userCommand) (shell : Shell) :
    (startProcess os cmd shell).value? = some 1 ∨
    ((startProcess os cmd shell).value? = none ∧ ∀ pid, os.fork ≠ .parent pid) := by
  cases h1 : inputRedirection os cmd shell with
  | error s1 => rw [startProcess_input_failed _ _ _ _ h1]; exact Or.inl rfl
  | ok s1 =>
    cases h2 : outputRedirection os cmd s1 with
    | error s2 => rw [startProcess_output_failed _ _ _ _ _ h1 h2]; exact Or.inl rfl
    | ok s2 =>
      rw [startProcess_fork _ _ _ _ _ h1 h2]
      cases h : os.fork with
      | failed => exact Or.inr ⟨rfl, fun pid => ForkReply.noConfusion⟩
      | child =>
        refine Or.inr ⟨?_, fun pid => ForkReply.noConfusion⟩
        simp only [childProcess]
        split <;> rfl
      | parent pid => exact Or.inl rfl

theorem cdShell_value (os : Replies) (cmd : userCommand) (shell : Shell) :
    (cdShell os cmd shell).value? = some 1 := by
  unfold cdShell
  repeat' split
  all_goals rfl

theorem statusShell_value (os : Replies) (cmd : userCommand) (shell : Shell) :
    (statusShell os cmd shell).value? = some 1 := by
  unfold statusShell
  split <;> rfl

theorem dispatch_table (os : Replies) (cmd : userCommand) (shell : Shell) (name : List Char) :
    dispatch os cmd shell name builtin_commands builtin_func =
      if name = "exit".toList then exitShell os cmd shell
      else if name = "cd".toList then cdShell os cmd shell
      else if name = "status".toList then statusShell os cmd shell
      else startProcess os cmd shell := by
  simp only [builtin_commands, builtin_func, dispatch]

/-- C10: `executeCommand` returns 0 exactly for the command name `exit`, and
then without any other effect; a blank line or a comment returns 1; any other
name is compared with `exit`, `cd`, `status` in this order, the function of
the first equal name is called and no equal name starts a process; every
command other than `exit` returns 1, except that the call does not return
when `startProcess` was reached and `fork` did not answer as the parent. -/
theorem executeCommand_sentinel (os : Replies) (cmd : userCommand) (shell : Shell) :
    ((executeCommand os cmd shell).value? = some 0 ↔ cmd.command = some "exit".toList) ∧
    (cmd.command = some "exit".toList → executeCommand os cmd shell = .returned 0 shell) ∧
    (cmd.command ≠ some "exit".toList →
      (executeCommand os cmd shell).value? = some 1 ∨
      ((executeCommand os cmd shell).value? = none ∧
        executeCommand os cmd shell = startProcess os cmd shell ∧
        ∀ pid, os.fork ≠ .parent pid)) ∧
    (∀ name, cmd.command = some name → name ≠ comment_line → name.head? ≠ some '#' →
      executeCommand os cmd shell =
        if name = "exit".toList then exitShell os cmd shell
        else if name = "cd".toList then cdShell os cmd shell
        else if name = "status".toList then statusShell os cmd shell
        else startProcess os cmd shell) := by
  have htable : ∀ name, cmd.command = some name → name ≠ comment_line →
      name.head? ≠ some '#' →
      executeCommand os cmd shell =
        if name = "exit".toList then exitShell os cmd shell
        else if name = "cd".toList then cdShell os cmd shell
        else if name = "status".toList then statusShell os cmd shell
        else startProcess os cmd shell := by
    intro name hn h1 h2
    have h1' : ¬ comment_line = name := fun e => h1 e.symm
    simp only [executeCommand, hn, h1', h2, false_or, if_false, dispatch_table]
  have hother : cmd.command ≠ some "exit".toList →
      (executeCommand os cmd shell).value? = some 1 ∨
      ((executeCommand os cmd shell).value? = none ∧
        executeCommand os cmd shell = startProcess os cmd shell ∧
        ∀ pid, os.fork ≠ .parent pid) := by
    intro hne
    cases hc : cmd.command with
    | none => left; simp [executeCommand, hc, Outcome.value?]
    | some name =>
      by_cases hcom : comment_line = name ∨ name.head? = some '#'
      · left; simp [executeCommand, hc, hcom, Outcome.value?]
      · have h1 : name ≠ comment_line := fun e => hcom (Or.inl e.symm)
        have h2 : name.head? ≠ some '#' := fun e => hcom (Or.inr e)
        have hex : name ≠ "exit".toList := fun e => hne (by rw [hc, e])
        rw [htable name hc h1 h2, if_neg hex]
        by_cases hcd : name = "cd".toList
        · rw [if_pos hcd]; exact Or.inl (cdShell_value _ _ _)
        · rw [if_neg hcd]
          by_cases hst : name = "status".toList
          · rw [if_pos hst]; exact Or.inl (statusShell_value _ _ _)
          · rw [if_neg hst]
            rcases startProcess_value os cmd shell with h | h
            · exact Or.inl h
            · exact Or.inr ⟨h.1, rfl, h.2⟩
  have hexit : cmd.command = some "exit".toList →
      executeCommand os cmd shell = .returned 0 shell := by
    intro he
    rw [htable _ he (by decide) (by decide), if_pos rfl]
    rfl
  refine ⟨⟨?_, ?_⟩, hexit, hother, htable⟩
  · intro h0
    by_contra hne
    rcases hother hne with h | h
    · rw [h0] at h; exact absurd h (by decide)
    · rw [h0] at h; exact absurd h.1 (by decide)
  · intro he
    rw [hexit he]
    rfl

/-! ## The capacity of `arguments`, at a line that `readInput` returns -/

theorem readInput_lineWithArguments (readBuffer : Nat → Char) (pid k : Nat)
    (unread : List Char) (hk : 2 * k + 1 < bufsize) :
    readInput (some readBuffer) pid (lineWithArguments k ++ '\n' :: unread) =
      .line (lineWithArguments k) unread := by
  have hlen := length_lineWithArguments k
  obtain ⟨buf1, count1, h1, h2, _⟩ := readLoop_plain pid (lineWithArguments k)
    ('\n' :: unread) readBuffer 0 0
    (by
      intro ch hch
      simp only [lineWithArguments, List.mem_cons, List.mem_flatten, List.mem_replicate] at hch
      rcases hch with rfl | ⟨l, ⟨_, rfl⟩, hl⟩
      · decide
      · simp only [List.mem_cons, List.mem_singleton, List.not_mem_nil, or_false] at hl
        rcases hl with rfl | rfl <;> decide)
    (by omega)
  rw [Nat.zero_add] at h1 h2
  rw [readInput, h1, readLoop_newline _ _ _ _ _ (by omega), h2]
  simp [contents]

/-- C5 at the failing input: the line `c` followed by 513 times ` a` has 1027
characters and `readInput` returns it; `structParser` stores its 513th
argument at `arguments[512]`, an index that is not below the capacity 512:
this is the first store outside the array, and the loop goes on to
`argNum = 513`.  With 512 arguments no store is outside the array. -/
theorem structParser_overruns_arguments (readBuffer : Nat → Char)
    (uninit : Nat → Option (List Char)) (pid : Nat) (unread : List Char) :
    (lineWithArguments 513).length = 1027 ∧
    readInput (some readBuffer) pid (lineWithArguments 513 ++ '\n' :: unread) =
      .line (lineWithArguments 513) unread ∧
    (structParser uninit (lineWithArguments 513)).overrun = some 512 ∧
    (structParser uninit (lineWithArguments 513)).cmd.argNum = 513 ∧
    (structParser uninit (lineWithArguments 513)).cmd.arguments 512 = some ['a'] ∧
    ¬ 512 < argumentsCapacity ∧
    ¬ (structParser uninit (lineWithArguments 513)).cmd.argNum ≤ argumentsCapacity ∧
    (structParser uninit (lineWithArguments 512)).overrun = none := by
  have hn : (structParser uninit (lineWithArguments 513)).cmd.argNum = 513 := by
    rw [structParser_lineWithArguments]
  have ho : (structParser uninit (lineWithArguments 513)).overrun = some 512 := by
    rw [structParser_lineWithArguments]
    rfl
  have ho' : (structParser uninit (lineWithArguments 512)).overrun = none := by
    rw [structParser_lineWithArguments]
    rfl
  refine ⟨length_lineWithArguments 513,
    readInput_lineWithArguments readBuffer pid 513 unread (by decide), ho, hn,
    structParser_lineWithArguments_cell uninit 513 512 (by omega), by decide, ?_, ho'⟩
  rw [hn]
  decide

/-! ## What every call of `readInput` keeps -/

theorem copyPid_error_index (ds : List Char) (buf : Nat → Char) (pos index : Nat)
    (hp : pos ≤ bufsize) (h : copyPid ds buf pos = .error index) : index = bufsize := by
  induction ds generalizing buf pos with
  | nil => simp [copyPid] at h
  | cons d ds ih =>
    rw [copyPid] at h
    by_cases hlt : pos < bufsize
    · rw [if_pos hlt] at h
      exact ih _ _ (by omega) h
    · rw [if_neg hlt] at h
      injection h with h
      omega

theorem readLoop_inBounds (pid : Nat) (input : List Char) (buf : Nat → Char) (pos count : Nat)
    (hpos : pos < bufsize) : (readLoop pid input buf pos count).inBounds := by
  induction input generalizing buf pos count with
  | nil => simp [readLoop, hpos, ReadResult.inBounds, length_contents]
  | cons ch rest ih =>
    rw [readLoop]
    simp only [hpos, if_true]
    by_cases hn : ch = '\n'
    · simp [hn, ReadResult.inBounds, length_contents, hpos]
    · rw [if_neg hn]
      by_cases hd : ch = '$'
      · rw [if_pos hd]
        by_cases hc : count + 1 = 2
        · rw [if_pos hc]
          by_cases hs : pidStringSize < (pidDigits pid).length + 1
          · rw [if_pos hs]; trivial
          · rw [if_neg hs]
            cases hcp : copyPid (pidDigits pid) buf (pos - 1) with
            | error index =>
              exact copyPid_error_index _ _ _ _ (by omega) hcp
            | ok r =>
              obtain ⟨buf', pos'⟩ := r
              simp only
              by_cases hge : pos' - 1 + 1 ≥ bufsize
              · rw [if_pos hge]; trivial
              · rw [if_neg hge]; exact ih _ _ _ (by omega)
        · rw [if_neg hc]
          by_cases hge : pos + 1 ≥ bufsize
          · rw [if_pos hge]; trivial
          · rw [if_neg hge]; exact ih _ _ _ (by omega)
      · rw [if_neg hd]
        by_cases hsp : ch = ' '
        · rw [if_pos hsp]
          by_cases hge : pos + 1 ≥ bufsize
          · rw [if_pos hge]; trivial
          · rw [if_neg hge]; exact ih _ _ _ (by omega)
        · rw [if_neg hsp]
          by_cases hge : pos + 1 ≥ bufsize
          · rw [if_pos hge]; trivial
          · rw [if_neg hge]; exact ih _ _ _ (by omega)

theorem readInput_inBounds (malloc : Option (Nat → Char)) (pid : Nat) (stdin : List Char) :
    (readInput malloc pid stdin).inBounds := by
  cases malloc with
  | none => trivial
  | some buf => exact readLoop_inBounds pid stdin buf 0 0 (by decide)

theorem readInput_plain (readBuffer : Nat → Char) (pid : Nat) (line unread : List Char)
    (hl : ∀ ch ∈ line, ch ≠ '\n' ∧ ch ≠ '$') (hlen : line.length < bufsize) :
    readInput (some readBuffer) pid (line ++ '\n' :: unread) = .line line unread ∧
    readInput (some readBuffer) pid line = .line line [] := by
  constructor
  · obtain ⟨buf1, count1, h1, h2, _⟩ := readLoop_plain pid line ('\n' :: unread) readBuffer 0 0 hl
      (by omega)
    rw [Nat.zero_add] at h1 h2
    rw [readInput, h1, readLoop_newline _ _ _ _ _ hlen, h2]
    simp [contents]
  · obtain ⟨buf1, count1, h1, h2, _⟩ := readLoop_plain pid line [] readBuffer 0 0 hl (by omega)
    rw [Nat.zero_add, List.append_nil] at h1
    rw [Nat.zero_add] at h2
    rw [readInput, h1, readLoop_eof _ _ _ _ hlen, h2]
    simp [contents]

/-! ## End of input -/

theorem readInput_eof (readBuffer : Nat → Char) (pid : Nat) :
    readInput (some readBuffer) pid [] = .line [] [] := by
  rw [readInput, readLoop_eof _ _ _ _ (by decide)]
  rfl

theorem executeCommand_blank (os : Replies) (uninit : Nat → Option (List Char)) (shell : Shell) :
    executeCommand os (structParser uninit []).cmd shell = .returned 1 shell := rfl

theorem structParser_nil_overrun (uninit : Nat → Option (List Char)) :
    (structParser uninit []).overrun = none := rfl

theorem shell_loop_eof_step (pid : Nat) (it : Iteration) (more : List Iteration) (shell : Shell) :
    shell_loop pid (it :: more) [] shell =
      match it.malloc with
      | none => .exited EXIT_FAILURE (pollPass it.waits shell)
      | some _ => shell_loop pid more [] (pollPass it.waits shell) := by
  rw [shell_loop]
  cases h : it.malloc with
  | none => simp only [readInput]
  | some buf =>
    simp only [readInput_eof, structParser_nil_overrun, executeCommand_blank]
    rfl

theorem shell_loop_eof (pid : Nat) (its : List Iteration) (shell : Shell) :
    (∃ sh, shell_loop pid its [] shell = .running [] sh) ∨
    (∃ sh, shell_loop pid its [] shell = .exited EXIT_FAILURE sh ∧ ∃ it ∈ its, it.malloc = none) := by
  induction its generalizing shell with
  | nil => exact Or.inl ⟨shell, rfl⟩
  | cons it more ih =>
    rw [shell_loop_eof_step]
    cases h : it.malloc with
    | none => exact Or.inr ⟨_, rfl, it, List.mem_cons_self _ _, h⟩
    | some buf =>
      rcases ih (pollPass it.waits shell) with ⟨sh, hs⟩ | ⟨sh, hs, it', hm, hn⟩
      · exact Or.inl ⟨sh, hs⟩
      · exact Or.inr ⟨sh, hs, it', List.mem_cons_of_mem _ hm, hn⟩

/-- C11 at the failing input: at end-of-input `readInput` returns the empty
line, its command is absent and `executeCommand` returns 1, not the
terminating 0; so `shell_loop` started at end-of-input is never left: after
any number of iterations it is still running at end-of-input (or the
allocation failed and the exit code is `EXIT_FAILURE`), and the exit code is
never 0. -/
theorem shell_loop_eof_never_ends (pid : Nat) (its : List Iteration) (shell : Shell)
    (readBuffer : Nat → Char) (uninit : Nat → Option (List Char)) (os : Replies) :
    readInput (some readBuffer) pid [] = .line [] [] ∧
    (structParser uninit []).overrun = none ∧
    (structParser uninit []).cmd.command = none ∧
    executeCommand os (structParser uninit []).cmd shell = .returned 1 shell ∧
    (∀ sh, shell_loop pid its [] shell ≠ .returned sh) ∧
    (shell_loop pid its [] shell).exitCode? ≠ some 0 ∧
    ((∀ it ∈ its, it.malloc ≠ none) → ∃ sh, shell_loop pid its [] shell = .running [] sh) := by
  refine ⟨readInput_eof readBuffer pid, rfl, rfl, rfl, ?_, ?_, ?_⟩
  · intro sh h
    rcases shell_loop_eof pid its shell with ⟨s, hs⟩ | ⟨s, hs, _⟩ <;>
      rw [hs] at h <;> exact LoopResult.noConfusion h
  · rcases shell_loop_eof pid its shell with ⟨s, hs⟩ | ⟨s, hs, _⟩ <;> rw [hs] <;>
      simp [LoopResult.exitCode?, EXIT_FAILURE]
  · intro hall
    rcases shell_loop_eof pid its shell with ⟨s, hs⟩ | ⟨s, _, it, hm, hn⟩
    · exact ⟨s, hs⟩
    · exact absurd hn (hall it hm)

/-! ## The built-in `status` -/

theorem statusShell_eq (os : Replies) (cmd : userCommand) (shell : Shell) :
    statusShell os cmd shell =
      .returned 1 (shell.printf
        (if WIFEXITED shell.foreStatus ≠ 0 then .exitValue 1
         else .terminatedBySignal (WTERMSIG shell.foreStatus))) := by
  unfold statusShell
  by_cases h : WIFEXITED shell.foreStatus ≠ 0
  · have h1 : WIFEXITED shell.foreStatus = 1 := by
      unfold WIFEXITED at h ⊢
      split
      · rfl
      · rename_i hne; simp [hne] at h
    rw [if_pos h, if_pos h, h1]
  · rw [if_neg h, if_neg h]

/-- C12 at the failing input: the raw status 512 is that of a process that
exited normally with code 2 (for instance, it is stored in `foreStatus` by the
foreground wait of `startProcess`); `statusShell` then prints `exit value 1`,
the value of `WIFEXITED`, not `exit value 2`.  For every status it prints
`exit value 1` or `terminated by signal` with `WTERMSIG` of the status. -/
theorem statusShell_prints_flag (os : Replies) (cmd : userCommand) (shell : Shell) :
    WIFEXITED 512 = 1 ∧ WEXITSTATUS 512 = 2 ∧
    (parentProcess (Replies.fine 100 (some 512)) { cmd with backProc := false } 100
      shell).foreStatus = 512 ∧
    statusShell os cmd { shell with foreStatus := 512 } =
      .returned 1 ({ shell with foreStatus := 512 }.printf (.exitValue 1)) ∧
    Printed.exitValue 1 ≠ Printed.exitValue (WEXITSTATUS 512) ∧
    statusShell os cmd shell =
      .returned 1 (shell.printf
        (if WIFEXITED shell.foreStatus ≠ 0 then .exitValue 1
         else .terminatedBySignal (WTERMSIG shell.foreStatus))) := by
  refine ⟨by decide, by decide, rfl, rfl, by decide, statusShell_eq os cmd shell⟩

/-! ## The descriptors after `startProcess` -/

/-- C13 at the failing input: for `sort < in.txt > /no/out.txt`, when
`in.txt` is opened and put on descriptor 0 and the output file cannot be
opened, `startProcess` returns 1 from the output block without restoring:
descriptor 0 of the interpreter refers to `in.txt`, not to what it referred to
before the call. -/
theorem startProcess_leaves_stdin_redirected :
    (structParser (fun _ => none) "sort < in.txt > /no/out.txt".toList).cmd.in_file =
      some "in.txt".toList ∧
    (structParser (fun _ => none) "sort < in.txt > /no/out.txt".toList).cmd.out_file =
      some "/no/out.txt".toList ∧
    (startProcess { Replies.fine 100 none with openTarget := false }
      (structParser (fun _ => none) "sort < in.txt > /no/out.txt".toList).cmd
      Shell.initial).value? = some 1 ∧
    (startProcess { Replies.fine 100 none with openTarget := false }
      (structParser (fun _ => none) "sort < in.txt > /no/out.txt".toList).cmd
      Shell.initial).shell.stdin = .opened "in.txt".toList false ∧
    Shell.initial.stdin = .inherited 0 ∧
    (startProcess { Replies.fine 100 none with openTarget := false }
      (structParser (fun _ => none) "sort < in.txt > /no/out.txt".toList).cmd
      Shell.initial).shell.stdin ≠ Shell.initial.stdin := by
  decide

theorem startProcess_parent_restores (os : Replies) (cmd : userCommand) (shell : Shell)
    (pid : Int) (s1 s2 : Shell)
    (h1 : inputRedirection os cmd shell = .ok s1) (h2 : outputRedirection os cmd s1 = .ok s2)
    (hf : os.fork = .parent pid)
    (hd0 : os.dupStdin = true) (hd1 : os.dupStdout = true)
    (hr0 : os.restoreStdin = true) (hr1 : os.restoreStdout = true) :
    (startProcess os cmd shell).value? = some 1 ∧
    (startProcess os cmd shell).shell.stdin = shell.stdin ∧
    (startProcess os cmd shell).shell.stdout = shell.stdout := by
  rw [startProcess_fork os cmd shell s1 s2 h1 h2, hf]
  simp only [hd0, hd1, if_true, restoreStdin, restoreStdout, hr0, hr1, parentProcess]
  refine ⟨rfl, ?_, ?_⟩ <;> (by_cases hb : cmd.backProc = true <;> simp [hb, Outcome.shell, Shell.printf])

/-! ## The built-in `cd` -/

/-- C14 at the failing input: `structParser` does not initialise `arguments`,
and `cdShell` tests `arguments[0]` instead of `argNum`.  When the cells of
`arguments` still hold what the parse of `ls /tmp` left there, the command
`cd` has `argNum = 0` and `arguments[0]` is `/tmp`: `cdShell` changes the
directory to `/tmp`, not to the value `/home/user` of `HOME`; with null
pointers in `arguments` the same line changes it to `HOME`. -/
theorem cdShell_reads_stale_argument :
    (structParser (structParser (fun _ => none) "ls /tmp".toList).cmd.arguments
      "cd".toList).cmd.command = some "cd".toList ∧
    (structParser (structParser (fun _ => none) "ls /tmp".toList).cmd.arguments
      "cd".toList).cmd.argNum = 0 ∧
    (structParser (structParser (fun _ => none) "ls /tmp".toList).cmd.arguments
      "cd".toList).cmd.arguments 0 = some "/tmp".toList ∧
    (Replies.fine 100 none).home = some "/home/user".toList ∧
    (executeCommand (Replies.fine 100 none)
      (structParser (structParser (fun _ => none) "ls /tmp".toList).cmd.arguments "cd".toList).cmd
      Shell.initial).shell.cwd = some "/tmp".toList ∧
    (executeCommand (Replies.fine 100 none)
      (structParser (fun _ => none) "cd".toList).cmd Shell.initial).shell.cwd =
      some "/home/user".toList := by
  decide

/-! ## Blank lines and comments -/

theorem structParser_command (uninit : Nat → Option (List Char)) (line : List Char) :
    (structParser uninit line).cmd.command = (strtokAll (cstr line)).head? := by
  rw [structParser, parseTokens_eq]

/-- C15: for a line without a token, and for a line whose first token begins
with `#` (the token `#` included), `executeCommand` on the parsed command
returns 1 and leaves the whole state as it was: no built-in runs and no
process is started. -/
theorem executeCommand_blank_or_comment (os : Replies) (uninit : Nat → Option (List Char))
    (line : List Char) (shell : Shell)
    (h : strtokAll (cstr line) = [] ∨
      ∃ first rest, strtokAll (cstr line) = first :: rest ∧ first.head? = some '#') :
    executeCommand os (structParser uninit line).cmd shell = .returned 1 shell := by
  unfold executeCommand
  rw [structParser_command]
  rcases h with h | ⟨first, rest, h, hf⟩
  · rw [h]; rfl
  · rw [h]
    simp only [List.head?_cons, hf, or_true, if_true]

/-- Instances of C15: the line `exit` with `#` directly before it, the lines
`# exit` and `#`, and three spaces. -/
theorem executeCommand_blank_or_comment_witness :
    executeCommand (Replies.fine 100 none) (structParser (fun _ => none) ('#' :: "exit".toList)).cmd
      Shell.initial = .returned 1 Shell.initial ∧
    executeCommand (Replies.fine 100 none) (structParser (fun _ => none) "# exit".toList).cmd
      Shell.initial = .returned 1 Shell.initial ∧
    executeCommand (Replies.fine 100 none) (structParser (fun _ => none) "#".toList).cmd
      Shell.initial = .returned 1 Shell.initial ∧
    executeCommand (Replies.fine 100 none) (structParser (fun _ => none) "   ".toList).cmd
      Shell.initial = .returned 1 Shell.initial :=
  ⟨executeCommand_blank_or_comment _ _ ('#' :: "exit".toList) _
      (Or.inr ⟨('#' :: "exit".toList), [], by decide, by decide⟩),
   executeCommand_blank_or_comment _ _ "# exit".toList _
      (Or.inr ⟨"#".toList, ["exit".toList], by decide, by decide⟩),
   executeCommand_blank_or_comment _ _ "#".toList _
      (Or.inr ⟨"#".toList, [], by decide, by decide⟩),
   executeCommand_blank_or_comment _ _ "   ".toList _ (Or.inl (by decide))⟩

/-! ## A redirection file that cannot be opened -/

/-- C16: when the input file is requested and cannot be opened, or the
output file is requested and cannot be opened, `startProcess` returns 1 after
one more `perror` line, with `pidArray`, `pidPos`, `foreStatus` and
`backStatus` as they were; `fork` is not reached: the result is the same
whatever `fork`, `execvp` and `waitpid` would answer. -/
theorem startProcess_open_failed (os : Replies) (cmd : userCommand) (shell : Shell)
    (h : (cmd.in_file ≠ none ∧ os.openSource = false) ∨
      (cmd.out_file ≠ none ∧ os.openTarget = false)) :
    ∃ sh, startProcess os cmd shell = .returned 1 sh ∧
      sh.pidArray = shell.pidArray ∧ sh.pidPos = shell.pidPos ∧
      sh.foreStatus = shell.foreStatus ∧ sh.backStatus = shell.backStatus ∧
      (∃ pfx, sh.printed = shell.printed ++ [.perror pfx]) ∧
      ∀ (reply : ForkReply) (execvp : Bool) (waitStatus : Option Int),
        startProcess { os with fork := reply, execvp := execvp, waitStatus := waitStatus }
          cmd shell = .returned 1 sh := by
  cases h1 : inputRedirection os cmd shell with
  | error s1 =>
    refine ⟨s1, startProcess_input_failed _ _ _ _ h1, ?_⟩
    have hs : ∃ pfx, s1 = shell.perror pfx := by
      unfold inputRedirection at h1
      split at h1
      · exact Except.noConfusion h1
      · split at h1
        · injection h1 with h1; exact ⟨_, h1.symm⟩
        · split at h1
          · injection h1 with h1; exact ⟨_, h1.symm⟩
          · exact Except.noConfusion h1
    obtain ⟨pfx, rfl⟩ := hs
    refine ⟨rfl, rfl, rfl, rfl, ⟨pfx, rfl⟩, ?_⟩
    intro reply execvp waitStatus
    exact startProcess_input_failed _ _ _ _ h1
  | ok s1 =>
    have hin : ¬ (cmd.in_file ≠ none ∧ os.openSource = false) := by
      rintro ⟨hi, ho⟩
      unfold inputRedirection at h1
      split at h1
      · rename_i hnone; exact hi hnone
      · simp [ho] at h1
    have hout : cmd.out_file ≠ none ∧ os.openTarget = false := by
      rcases h with h | h
      · exact absurd h hin
      · exact h
    have hs1 : s1.pidArray = shell.pidArray ∧ s1.pidPos = shell.pidPos ∧
        s1.foreStatus = shell.foreStatus ∧ s1.backStatus = shell.backStatus ∧
        s1.printed = shell.printed := by
      unfold inputRedirection at h1
      split at h1
      · injection h1 with h1; subst h1; exact ⟨rfl, rfl, rfl, rfl, rfl⟩
      · split at h1
        · exact Except.noConfusion h1
        · split at h1
          · exact Except.noConfusion h1
          · injection h1 with h1; subst h1; exact ⟨rfl, rfl, rfl, rfl, rfl⟩
    obtain ⟨path, hp⟩ : ∃ path, cmd.out_file = some path := by
      cases hc : cmd.out_file with
      | none => exact absurd hc hout.1
      | some path => exact ⟨path, rfl⟩
    have h2 : outputRedirection os cmd s1 = .error (s1.perror "smallsh: badfile") := by
      simp [outputRedirection, hp, hout.2]
    refine ⟨s1.perror "smallsh: badfile", startProcess_output_failed _ _ _ _ _ h1 h2, ?_⟩
    obtain ⟨e1, e2, e3, e4, e5⟩ := hs1
    refine ⟨e1, e2, e3, e4, ⟨"smallsh: badfile", by simp [Shell.perror, e5]⟩, ?_⟩
    intro reply execvp waitStatus
    exact startProcess_output_failed _ _ _ _ _ h1 h2

/-- An instance of C16: `sort < in.txt > /no/out.txt` when the output file
cannot be opened. -/
theorem startProcess_open_failed_witness :
    ∃ sh, startProcess { Replies.fine 100 none with openTarget := false }
        (structParser (fun _ => none) "sort < in.txt > /no/out.txt".toList).cmd Shell.initial =
        .returned 1 sh ∧
      sh.pidArray = Shell.initial.pidArray ∧ sh.pidPos = Shell.initial.pidPos ∧
      sh.foreStatus = Shell.initial.foreStatus ∧ sh.backStatus = Shell.initial.backStatus ∧
      (∃ pfx, sh.printed = Shell.initial.printed ++ [.perror pfx]) ∧
      ∀ (reply : ForkReply) (execvp : Bool) (waitStatus : Option Int),
        startProcess
          { ({ Replies.fine 100 none with openTarget := false } : Replies) with
            fork := reply, execvp := execvp, waitStatus := waitStatus }
          (structParser (fun _ => none) "sort < in.txt > /no/out.txt".toList).cmd Shell.initial =
          .returned 1 sh :=
  startProcess_open_failed { Replies.fine 100 none with openTarget := false }
    (structParser (fun _ => none) "sort < in.txt > /no/out.txt".toList).cmd Shell.initial
    (Or.inr ⟨by decide, rfl⟩)

/-! ## The job registry -/

theorem pollSlot_pidArray (reply : WaitReply) (i : Nat) (shell : Shell) (j : Nat) :
    (pollSlot reply i shell).pidArray j =
      if j = i ∧ shell.pidArray i ≠ 0 ∧ reply.result ≠ 0 then 0 else shell.pidArray j := by
  unfold pollSlot
  by_cases h0 : shell.pidArray i = 0
  · simp [h0]
  · by_cases hr : reply.result = 0
    · simp [h0, hr]
    · by_cases hj : j = i
      · subst hj
        simp [h0, hr, store]
      · simp only [h0, hr, if_false, store, hj, false_and]
        split <;> simp [Shell.printf]

theorem pollSlot_frame (reply : WaitReply) (i : Nat) (shell : Shell) :
    (pollSlot reply i shell).pidPos = shell.pidPos ∧
    (pollSlot reply i shell).foreStatus = shell.foreStatus ∧
    (pollSlot reply i shell).stdin = shell.stdin ∧
    (pollSlot reply i shell).stdout = shell.stdout ∧
    (pollSlot reply i shell).cwd = shell.cwd := by
  unfold pollSlot
  by_cases h0 : shell.pidArray i = 0
  · simp [h0]
  · by_cases hr : reply.result = 0
    · simp [h0, hr]
    · simp only [h0, hr, if_false]
      split <;> simp [Shell.printf]

theorem pollFold_pidArray (waits : Nat → WaitReply) (l : List Nat) (hl : l.Nodup)
    (shell : Shell) (j : Nat) :
    (l.foldl (fun shell i => pollSlot (waits i) i shell) shell).pidArray j =
      if j ∈ l ∧ shell.pidArray j ≠ 0 ∧ (waits j).result ≠ 0 then 0 else shell.pidArray j := by
  induction l generalizing shell with
  | nil => simp
  | cons i l ih =>
    rw [List.foldl_cons, ih (List.nodup_cons.mp hl).2]
    have hi : i ∉ l := (List.nodup_cons.mp hl).1
    rw [pollSlot_pidArray]
    by_cases hj : j = i
    · subst hj
      by_cases hc : shell.pidArray j ≠ 0 ∧ (waits j).result ≠ 0
      · simp [hc, hi]
      · simp [hc, hi]
    · simp [hj]

theorem pollFold_frame (waits : Nat → WaitReply) (l : List Nat) (shell : Shell) :
    (l.foldl (fun shell i => pollSlot (waits i) i shell) shell).pidPos = shell.pidPos ∧
    (l.foldl (fun shell i => pollSlot (waits i) i shell) shell).foreStatus =
      shell.foreStatus := by
  induction l generalizing shell with
  | nil => exact ⟨rfl, rfl⟩
  | cons i l ih =>
    rw [List.foldl_cons]
    obtain ⟨h1, h2⟩ := ih (pollSlot (waits i) i shell)
    obtain ⟨h3, h4, _⟩ := pollSlot_frame (waits i) i shell
    exact ⟨h1.trans h3, h2.trans h4⟩

/-- C19: one poll pass changes a slot only by clearing it, and it clears the
slot `i < 5` exactly when the slot is filled and the wait for it answers
something other than 0 (no change); a free slot, a slot whose wait answers 0
and every cell from index 5 on keep their value, so no process id moves to
another index; `pidPos` and `foreStatus` are kept. -/
theorem pollPass_slots (waits : Nat → WaitReply) (shell : Shell) (i : Nat) :
    (i < 5 → (pollPass waits shell).pidArray i =
      if shell.pidArray i ≠ 0 ∧ (waits i).result ≠ 0 then 0 else shell.pidArray i) ∧
    (shell.pidArray i = 0 → (pollPass waits shell).pidArray i = 0) ∧
    ((waits i).result = 0 → (pollPass waits shell).pidArray i = shell.pidArray i) ∧
    (5 ≤ i → (pollPass waits shell).pidArray i = shell.pidArray i) ∧
    ((pollPass waits shell).pidArray i = shell.pidArray i ∨
      (pollPass waits shell).pidArray i = 0) ∧
    (pollPass waits shell).pidPos = shell.pidPos ∧
    (pollPass waits shell).foreStatus = shell.foreStatus := by
  have h := pollFold_pidArray waits (List.range 5) (List.nodup_range 5) shell i
  have hf := pollFold_frame waits (List.range 5) shell
  unfold pollPass
  rw [h]
  simp only [List.mem_range]
  refine ⟨?_, ?_, ?_, ?_, ?_, hf.1, hf.2⟩
  · intro hi; simp [hi]
  · intro h0; simp [h0]
  · intro hr; simp [hr]
  · intro hi; simp [Nat.not_lt.mpr hi]
  · by_cases hc : i < 5 ∧ shell.pidArray i ≠ 0 ∧ (waits i).result ≠ 0
    · right; rw [if_pos hc]
    · left; rw [if_neg hc]

theorem parentProcess_background (os : Replies) (cmd : userCommand) (pid : Int) (shell : Shell)
    (h : cmd.backProc = true) :
    (parentProcess os cmd pid shell).pidArray = store shell.pidArray shell.pidPos pid ∧
    (parentProcess os cmd pid shell).pidPos = shell.pidPos + 1 := by
  simp [parentProcess, h, Shell.printf]

/-- C17 at the failing input: six lines `x &`, each started in the
background (process ids 101 to 106) while no earlier job has ended.  The
launches store at `pidArray[pidPos]` with `pidPos` = 0, 1, ..., 5: the sixth
store is at index 5, outside the 5 cells of `pidArray`. -/
theorem shell_loop_sixth_background_job :
    (shell_loop 77 (List.map Iteration.quiet [101, 102, 103, 104, 105])
      "x &\nx &\nx &\nx &\nx &\n".toList Shell.initial).shell.pidPos = 5 ∧
    (List.range 5).map (shell_loop 77 (List.map Iteration.quiet [101, 102, 103, 104, 105])
      "x &\nx &\nx &\nx &\nx &\n".toList Shell.initial).shell.pidArray =
      [101, 102, 103, 104, 105] ∧
    (shell_loop 77 (List.map Iteration.quiet [101, 102, 103, 104, 105, 106])
      "x &\nx &\nx &\nx &\nx &\nx &\n".toList Shell.initial).shell.pidPos = 6 ∧
    (shell_loop 77 (List.map Iteration.quiet [101, 102, 103, 104, 105, 106])
      "x &\nx &\nx &\nx &\nx &\nx &\n".toList Shell.initial).shell.pidArray 5 = 106 ∧
    Shell.initial.pidArray 5 = 0 ∧
    ¬ 5 < pidArrayCapacity := by
  decide

/-- C18 at the failing input: five lines `x &` are started in the background
(process ids 101 to 105); before the sixth line the poll finds that all five
have ended and clears the slots 0 to 4; the sixth `x &` (process id 106) is
then started while no background job is unreaped.  Its process id is stored
at index 5, outside `pidArray`, although every slot is free; the slots 0 to 4
stay free, and no later poll pass looks at index 5. -/
theorem shell_loop_freed_slots_not_reused (waits : Nat → WaitReply) :
    (List.range 5).map (shell_loop 77
      (List.map Iteration.quiet [101, 102, 103, 104, 105] ++
        [Iteration.reaping (fun i => 101 + i) 106])
      "x &\nx &\nx &\nx &\nx &\nx &\n".toList Shell.initial).shell.pidArray =
      [0, 0, 0, 0, 0] ∧
    (shell_loop 77
      (List.map Iteration.quiet [101, 102, 103, 104, 105] ++
        [Iteration.reaping (fun i => 101 + i) 106])
      "x &\nx &\nx &\nx &\nx &\nx &\n".toList Shell.initial).shell.pidArray 5 = 106 ∧
    (shell_loop 77
      (List.map Iteration.quiet [101, 102, 103, 104, 105] ++
        [Iteration.reaping (fun i => 101 + i) 106])
      "x &\nx &\nx &\nx &\nx &\nx &\n".toList Shell.initial).shell.pidPos = 6 ∧
    ¬ 5 < pidArrayCapacity ∧
    (pollPass waits (shell_loop 77
      (List.map Iteration.quiet [101, 102, 103, 104, 105] ++
        [Iteration.reaping (fun i => 101 + i) 106])
      "x &\nx &\nx &\nx &\nx &\nx &\n".toList Shell.initial).shell).pidArray 5 = 106 := by
  refine ⟨by decide, by decide, by decide, by decide, ?_⟩
  have h := pollFold_pidArray waits (List.range 5) (List.nodup_range 5)
    (shell_loop 77
      (List.map Iteration.quiet [101, 102, 103, 104, 105] ++
        [Iteration.reaping (fun i => 101 + i) 106])
      "x &\nx &\nx &\nx &\nx &\nx &\n".toList Shell.initial).shell 5
  unfold pollPass
  rw [h, if_neg (by simp)]
  decide

/-! ## The scan within the capacity of `arguments`, and beyond it -/

theorem splitAtSpaces_append_space (w rest : List Char) (h : ' ' ∉ w) :
    splitAtSpaces (w ++ ' ' :: rest) = w :: splitAtSpaces rest := by
  unfold splitAtSpaces List.splitOn
  apply List.splitOnP_first
  · intro x hx
    have : x ≠ ' ' := fun e => h (e ▸ hx)
    simpa using this
  · simp

theorem splitAtSpaces_joined (words : List (List Char)) (w : List Char) (hw : w ≠ [])
    (hs : ' ' ∉ w) (h : ∀ u ∈ words, u ≠ [] ∧ ' ' ∉ u) :
    (splitAtSpaces (w ++ (words.map (fun u => ' ' :: u)).flatten)).filter
      (fun piece => piece ≠ []) = w :: words := by
  induction words generalizing w with
  | nil => simp [splitAtSpaces_single w hs, hw]
  | cons u us ih =>
    have hu := h u (List.mem_cons_self _ _)
    rw [List.map_cons, List.flatten_cons, List.cons_append, splitAtSpaces_append_space w _ hs,
      List.filter_cons_of_pos (by simpa using hw),
      ih u hu.1 hu.2 (fun v hv => h v (List.mem_cons_of_mem _ hv))]

theorem structParser_lineWithWords (uninit : Nat → Option (List Char))
    (words : List (List Char)) (h : ∀ u ∈ words, u ≠ [] ∧ ' ' ∉ u ∧ '\x00' ∉ u) :
    structParser uninit (lineWithWords words) = parseTokens uninit (['c'] :: words) := by
  have hc : cstr (lineWithWords words) = lineWithWords words := by
    apply cstr_eq_self
    simp only [lineWithWords, List.mem_cons, List.mem_flatten, List.mem_map, not_or]
    refine ⟨by decide, ?_⟩
    rintro ⟨l, ⟨u, hu, rfl⟩, hl⟩
    rcases List.mem_cons.mp hl with hl | hl
    · revert hl; decide
    · exact (h u hu).2.2 hl
  have ht : strtokAll (lineWithWords words) = ['c'] :: words := by
    unfold strtokAll
    rw [strtokFrom_eq _ _ (Nat.lt_succ_self _)]
    exact splitAtSpaces_joined words ['c'] (by decide) (by decide)
      (fun u hu => ⟨(h u hu).1, (h u hu).2.1⟩)
  rw [structParser, hc, ht]

theorem tokensWithRole_words_append (k : Nat) (rest : List (List Char)) :
    tokensWithRole .argument (List.replicate k ['a'] ++ rest) =
      List.replicate k ['a'] ++ tokensWithRole .argument rest := by
  induction k with
  | zero => simp
  | succ k ih =>
    have hr : specRoles (['a'] :: (List.replicate k ['a'] ++ rest)) =
        .argument :: specRoles (List.replicate k ['a'] ++ rest) := by
      cases h : List.replicate k ['a'] ++ rest <;> simp [specRoles]
    rw [List.replicate_succ, List.cons_append, tokensWithRole_cons _ _ _ _ hr, ih]
    simp

theorem words_marker_plain (k : Nat) (u : List Char)
    (hu : u ∈ List.replicate k ['a'] ++ [['&'], ['x']]) :
    u = ['a'] ∨ u = ['&'] ∨ u = ['x'] := by
  rcases List.mem_append.mp hu with hu | hu
  · exact Or.inl (List.eq_of_mem_replicate hu)
  · simp only [List.mem_cons, List.mem_singleton, List.not_mem_nil, or_false] at hu
    exact Or.inr hu

theorem structParser_marker_line (uninit : Nat → Option (List Char)) (k : Nat) :
    (structParser uninit (lineWithWords (List.replicate k ['a'] ++ [['&'], ['x']]))).overrun =
      (if k + 2 ≤ argumentsCapacity then none else some argumentsCapacity) ∧
    (structParser uninit
      (lineWithWords (List.replicate k ['a'] ++ [['&'], ['x']]))).cmd.arguments k =
        some ['&'] := by
  have hw : ∀ u ∈ List.replicate k ['a'] ++ [['&'], ['x']],
      u ≠ [] ∧ ' ' ∉ u ∧ '\x00' ∉ u := by
    intro u hu
    rcases words_marker_plain k u hu with rfl | rfl | rfl <;> decide
  have ha : tokensWithRole .argument (List.replicate k ['a'] ++ [['&'], ['x']]) =
      List.replicate k ['a'] ++ [['&'], ['x']] := by
    rw [tokensWithRole_words_append]
    rfl
  rw [structParser_lineWithWords uninit _ hw, parseTokens_eq]
  simp only [List.tail_cons, ha]
  constructor
  · simp
  · have := storeList_get ((List.replicate k ['a'] ++ [['&'], ['x']]).map some) uninit 0 k
      (by simp)
    rw [Nat.zero_add] at this
    rw [this]
    simp [List.getElem_append_right]

theorem length_marker_line (k : Nat) :
    (lineWithWords (List.replicate k ['a'] ++ [['&'], ['x']])).length = 2 * k + 5 := by
  simp [lineWithWords, List.length_flatten, List.map_replicate, List.sum_replicate]
  omega

theorem readInput_marker_line (readBuffer : Nat → Char) (pid : Nat) (unread : List Char)
    (k : Nat) (hk : 2 * k + 5 < bufsize) :
    readInput (some readBuffer) pid
        (lineWithWords (List.replicate k ['a'] ++ [['&'], ['x']]) ++ '\n' :: unread) =
      .line (lineWithWords (List.replicate k ['a'] ++ [['&'], ['x']])) unread := by
  refine (readInput_plain readBuffer pid _ unread ?_ ?_).1
  · intro ch hch
    simp only [lineWithWords, List.mem_cons, List.mem_flatten, List.mem_map] at hch
    rcases hch with rfl | ⟨l, ⟨u, hu, rfl⟩, hl⟩
    · decide
    · rcases List.mem_cons.mp hl with rfl | hl
      · decide
      · rcases words_marker_plain k u hu with rfl | rfl | rfl <;>
          (rw [List.mem_singleton] at hl; subst hl; decide)
  · rw [length_marker_line]; exact hk

/-- C1: `structParser` makes a store outside `arguments` exactly when the
line has more than 512 tokens with the role of an argument, the first such
store being at index 512.  When it makes none, the returned command is the
scan of the specification over the tokens after the command name: `in_file`
is the token after the last scanned `<`, `out_file` the token after the last
scanned `>` (each absent when its marker is never scanned or nothing follows
it), and `arguments[0..argNum)` holds exactly the tokens with the role of an
argument, in source order.  The line `c` followed by 513 times ` a` has 1027
characters, `readInput` returns it, and the store of its last argument is at
index 512, outside the array; with 512 arguments no store is outside. -/
theorem structParser_scan (uninit : Nat → Option (List Char)) (line : List Char) :
    (structParser uninit line).overrun =
      (if (tokensWithRole .argument (strtokAll (cstr line)).tail).length ≤ argumentsCapacity
        then none else some argumentsCapacity) ∧
    ((structParser uninit line).overrun = none →
      (structParser uninit line).cmd.command = (strtokAll (cstr line)).head? ∧
      (structParser uninit line).cmd.in_file =
        specRedirect .inputMarker .inputOperand (strtokAll (cstr line)).tail ∧
      (structParser uninit line).cmd.out_file =
        specRedirect .outputMarker .outputOperand (strtokAll (cstr line)).tail ∧
      (structParser uninit line).cmd.argNum =
        (tokensWithRole .argument (strtokAll (cstr line)).tail).length ∧
      (structParser uninit line).cmd.argNum ≤ argumentsCapacity ∧
      (structParser uninit line).cmd.args =
        (tokensWithRole .argument (strtokAll (cstr line)).tail).map some) ∧
    (lineWithArguments 513).length = 1027 ∧
    (∀ (readBuffer : Nat → Char) (pid : Nat) (unread : List Char),
      readInput (some readBuffer) pid (lineWithArguments 513 ++ '\n' :: unread) =
        .line (lineWithArguments 513) unread) ∧
    (structParser uninit (lineWithArguments 513)).overrun = some 512 ∧
    (structParser uninit (lineWithArguments 512)).overrun = none := by
  have ho : (structParser uninit line).overrun =
      (if (tokensWithRole .argument (strtokAll (cstr line)).tail).length ≤ argumentsCapacity
        then none else some argumentsCapacity) := by
    simp only [structParser, parseTokens_eq]
  have hn : (structParser uninit line).cmd.argNum =
      (tokensWithRole .argument (strtokAll (cstr line)).tail).length := by
    simp only [structParser, parseTokens_eq]
  refine ⟨ho, fun hfit => ⟨?_, ?_, ?_, hn, ?_, parseTokens_args uninit _⟩,
    length_lineWithArguments 513,
    fun readBuffer pid unread =>
      readInput_lineWithArguments readBuffer pid 513 unread (by decide), ?_, ?_⟩
  · simp only [structParser, parseTokens_eq]
  · simp only [structParser, parseTokens_eq]
  · simp only [structParser, parseTokens_eq]
  · rw [hn]
    by_contra hgt
    rw [ho, if_neg hgt] at hfit
    exact Option.noConfusion hfit
  · rw [structParser_lineWithArguments]
    rfl
  · rw [structParser_lineWithArguments]
    rfl

/-- C2: when `structParser` makes no store outside `arguments`, `backProc` is
true exactly when the scan ends on an `&` that it reached and that no token
follows (then `&` is the last token of the line).  An iteration of the loop
that is at an `&` followed by another token sets `backProc` to false, makes
the store `arguments[tot_args]` of the literal `&`, and goes on with the
following token; this store is inside the array when `tot_args` is below 512,
and is otherwise recorded as a store outside it.
The line `c`, 512 times ` a`, then ` & x` has 1029 characters, `readInput`
returns it, and the store of its `&` is at index 512, outside the array. -/
theorem structParser_backProc (uninit : Nat → Option (List Char)) (line : List Char) :
    ((structParser uninit line).overrun = none →
      ((structParser uninit line).cmd.backProc = true ↔
        (specRoles (strtokAll (cstr line)).tail).getLast? = some .finalBackground) ∧
      ((structParser uninit line).cmd.backProc = true →
        (strtokAll (cstr line)).tail.getLast? = some background)) ∧
    (∀ (following : List Char) (next : List (List Char)) (newCommand : userCommand)
        (tot_args : Nat) (overrun : Option Nat),
      structParserLoop (background :: following :: next) newCommand tot_args overrun =
        structParserLoop (following :: next)
          { newCommand with
            backProc := false
            arguments := store newCommand.arguments tot_args (some background) }
          (tot_args + 1) (noteStore overrun tot_args)) ∧
    (∀ (tot_args : Nat) (overrun : Option Nat),
      tot_args < argumentsCapacity → noteStore overrun tot_args = overrun) ∧
    (∀ (tot_args : Nat),
      argumentsCapacity ≤ tot_args → noteStore none tot_args = some tot_args) ∧
    (lineWithWords (List.replicate 512 ['a'] ++ [['&'], ['x']])).length = 1029 ∧
    (∀ (readBuffer : Nat → Char) (pid : Nat) (unread : List Char),
      readInput (some readBuffer) pid
          (lineWithWords (List.replicate 512 ['a'] ++ [['&'], ['x']]) ++ '\n' :: unread) =
        .line (lineWithWords (List.replicate 512 ['a'] ++ [['&'], ['x']])) unread) ∧
    (structParser uninit
      (lineWithWords (List.replicate 512 ['a'] ++ [['&'], ['x']]))).overrun = some 512 ∧
    (structParser uninit
      (lineWithWords (List.replicate 512 ['a'] ++ [['&'], ['x']]))).cmd.arguments 512 =
        some background := by
  have h1 : (structParser uninit line).cmd.backProc = true ↔
      (specRoles (strtokAll (cstr line)).tail).getLast? = some .finalBackground := by
    simp only [structParser, parseTokens_eq, decide_eq_true_eq]
  refine ⟨fun _ => ⟨h1, fun h => specRoles_finalBackground _ (h1.mp h)⟩, ?_, ?_,
    fun tot_args hge => if_neg (Nat.not_lt.mpr hge), length_marker_line 512,
    fun readBuffer pid unread => readInput_marker_line readBuffer pid unread 512 (by decide),
    ?_, (structParser_marker_line uninit 512).2⟩
  · intro following next newCommand tot_args overrun
    conv_lhs => unfold structParserLoop
    simp [input_file, output_file, background]
  · intro tot_args overrun h
    cases overrun <;> simp [noteStore, h]
  · rw [(structParser_marker_line uninit 512).1]
    rfl

end Smallsh
